import Mathlib

/-!
Verification development for the F1-Predictor backend.

The repository exposes a pre-trained regression model behind one HTTP endpoint:
`app.py` (endpoint), `utils.py` (session fetch, prediction orchestration),
`preprocessing.py` (feature alignment) and `model_loader.py` (artifact loading).

Shallow embedding conventions:
* pandas DataFrames are modelled as a column-name list plus a list of rows,
  each row a total function from column name to a `Cell`
  (`num` for a numeric value, `nan` for a missing value, `str` for a string);
  float values are modelled as rationals (no NaN/Inf arithmetic is performed
  by the code on these paths, and NaN cells are the explicit `Cell.nan`).
* The fitted `OneHotEncoder` artifact (loaded from disk, fitted offline with
  `handle_unknown='ignore'` per the code's comments and its test block) is
  modelled by its three category vocabularies, taken as parameters.
* The regression model artifact is an abstract per-row scoring function.
* Python exceptions are modelled with `Except`.
* `pandas.DataFrame.sort_values` with the default `kind='quicksort'` delegates
  to `numpy.argsort(kind='quicksort')`; its portable implementation
  (`aquicksort` in numpy's `npysort/quicksort.c.src`, an introsort) is
  modelled faithfully below, including the median-of-3 Hoare partition,
  the `SMALL_QUICKSORT = 15` insertion-sort cutoff, the shared depth budget
  `2 * floor(log2 n)` and the heapsort fallback.
-/

/-- One cell of a pandas DataFrame: a numeric value, a missing value (NaN/NaT),
or a string. -/
inductive Cell where
  | num (q : ℚ)
  | nan
  | str (s : String)
deriving DecidableEq

instance : Inhabited Cell := ⟨Cell.nan⟩

/-- A pandas DataFrame: an ordered list of column names and a list of rows.
A row is a total function from column names to cells; only its values on
`cols` are meaningful. -/
structure DataFrame where
  cols : List String
  rows : List (String → Cell)

instance : Inhabited DataFrame := ⟨⟨[], []⟩⟩

/-- `preprocessing.py`: the frozen training-time column schema
(`TRAINING_FEATURE_NAMES`), transcribed verbatim. -/
def TRAINING_FEATURE_NAMES : List String := [
  "Season", "Round", "GridPosition", "Q1_s", "Q2_s", "Q3_s", "Position", "Abbreviation_ALB",
  "Abbreviation_ALO", "Abbreviation_ANT", "Abbreviation_BEA", "Abbreviation_BOR",
  "Abbreviation_BOT", "Abbreviation_BUT", "Abbreviation_COL", "Abbreviation_DEV",
  "Abbreviation_DIR", "Abbreviation_DOO", "Abbreviation_ERI", "Abbreviation_FIT",
  "Abbreviation_GAS", "Abbreviation_GIO", "Abbreviation_GRO", "Abbreviation_GUT",
  "Abbreviation_HAD", "Abbreviation_HAM", "Abbreviation_HAR", "Abbreviation_HUL",
  "Abbreviation_KUB", "Abbreviation_KVY", "Abbreviation_LAT", "Abbreviation_LAW",
  "Abbreviation_LEC", "Abbreviation_MAG", "Abbreviation_MAL", "Abbreviation_MAS",
  "Abbreviation_MAZ", "Abbreviation_MER", "Abbreviation_MSC", "Abbreviation_NAS",
  "Abbreviation_NOR", "Abbreviation_OCO", "Abbreviation_PAL", "Abbreviation_PER",
  "Abbreviation_PIA", "Abbreviation_RAI", "Abbreviation_RIC", "Abbreviation_ROS",
  "Abbreviation_RSS", "Abbreviation_RUS", "Abbreviation_SAI", "Abbreviation_SAR",
  "Abbreviation_SIR", "Abbreviation_STE", "Abbreviation_STR", "Abbreviation_TSU",
  "Abbreviation_VAN", "Abbreviation_VER", "Abbreviation_VET", "Abbreviation_WEH",
  "Abbreviation_ZHO", "TeamName_Alfa Romeo Racing", "TeamName_AlphaTauri", "TeamName_Alpine",
  "TeamName_Aston Martin", "TeamName_Ferrari", "TeamName_Force India", "TeamName_Haas F1 Team",
  "TeamName_Kick Sauber", "TeamName_Lotus F1", "TeamName_Manor Marussia", "TeamName_McLaren",
  "TeamName_Mercedes", "TeamName_RB", "TeamName_Racing Bulls", "TeamName_Racing Point",
  "TeamName_Red Bull", "TeamName_Red Bull Racing", "TeamName_Renault", "TeamName_Sauber",
  "TeamName_Toro Rosso", "TeamName_Williams", "EventName_Abu Dhabi Grand Prix",
  "EventName_Australian Grand Prix", "EventName_Austrian Grand Prix",
  "EventName_Azerbaijan Grand Prix", "EventName_Bahrain Grand Prix",
  "EventName_Belgian Grand Prix", "EventName_Brazilian Grand Prix",
  "EventName_British Grand Prix", "EventName_Canadian Grand Prix",
  "EventName_Chinese Grand Prix", "EventName_Dutch Grand Prix", "EventName_Eifel Grand Prix",
  "EventName_Emilia Romagna Grand Prix", "EventName_European Grand Prix",
  "EventName_French Grand Prix", "EventName_German Grand Prix",
  "EventName_Hungarian Grand Prix", "EventName_Italian Grand Prix",
  "EventName_Japanese Grand Prix", "EventName_Las Vegas Grand Prix",
  "EventName_Malaysian Grand Prix", "EventName_Mexican Grand Prix",
  "EventName_Mexico City Grand Prix", "EventName_Miami Grand Prix",
  "EventName_Monaco Grand Prix", "EventName_Portuguese Grand Prix",
  "EventName_Qatar Grand Prix", "EventName_Russian Grand Prix",
  "EventName_Sakhir Grand Prix", "EventName_Saudi Arabian Grand Prix",
  "EventName_Singapore Grand Prix", "EventName_Spanish Grand Prix",
  "EventName_Styrian Grand Prix", "EventName_São Paulo Grand Prix",
  "EventName_Turkish Grand Prix", "EventName_Tuscan Grand Prix",
  "EventName_United States Grand Prix"]

/-- `preprocessing.py` line 63: `numerical_cols_to_impute_with_zero`. -/
def numerical_cols_to_impute_with_zero : List String :=
  ["GridPosition", "Position", "Q1_s", "Q2_s", "Q3_s"]

/-- `preprocessing.py` line 71: `categorical_features_input`. -/
def categorical_features_input : List String := ["Abbreviation", "TeamName", "EventName"]

/-- `preprocessing.py` line 72: `numerical_features_input`. -/
def numerical_features_input : List String :=
  ["Season", "Round", "GridPosition", "Q1_s", "Q2_s", "Q3_s", "Position"]

/-- `preprocessing.py` lines 63-67: for each column of
`numerical_cols_to_impute_with_zero` that is present in the input and contains
at least one NaN, NaN entries are overwritten with `0.0`
(`df.loc[df[col].isna(), col] = 0.0`). -/
def imputedRow (data : DataFrame) (r : String → Cell) : String → Cell := fun c =>
  if c ∈ numerical_cols_to_impute_with_zero ∧ c ∈ data.cols ∧
      data.rows.any (fun r' => decide (r' c = Cell.nan)) ∧ r c = Cell.nan
  then Cell.num 0 else r c

/-- `preprocessing.py` lines 76-81: a categorical column entirely absent from
the input is synthesized with the placeholder value `'Unknown'`
(`df[col] = 'Unknown'`). -/
def synthRow (data : DataFrame) (r : String → Cell) : String → Cell := fun c =>
  if c ∈ categorical_features_input ∧ c ∉ data.cols then Cell.str "Unknown" else r c

/-- The fitted encoder's `(field, category)` pairs in `get_feature_names_out`
order: all `Abbreviation` categories, then `TeamName`, then `EventName`,
each in the encoder's fitted category order. The three vocabularies are the
state of the offline-fitted `one_hot_encoder.joblib` artifact. -/
def encPairs (vA vT vE : List String) : List (String × String) :=
  (vA.map (fun c => ("Abbreviation", c))) ++ (vT.map (fun c => ("TeamName", c))) ++
    (vE.map (fun c => ("EventName", c)))

/-- Encoded one-hot column name, as produced by `get_feature_names_out`. -/
def encName (p : String × String) : String := p.1 ++ "_" ++ p.2

/-- `preprocessing.py` lines 92-99: the numerical columns kept from the input
(in `numerical_features_input` order, dropping the absent ones). -/
def numPresent (data : DataFrame) : List String :=
  numerical_features_input.filter (fun c => data.cols.contains c)

/-- `preprocessing.py` lines 83-110: the value the final reindexed frame holds
in column `c` for a given (imputed, category-synthesized) row.  The
concatenation `pd.concat([numerical_df, encoded_df], axis=1)` puts the kept
numerical columns first, then one 0/1 column per fitted category
(`handle_unknown='ignore'` encodes a value outside the vocabulary as all
zeros); `reindex(columns=TRAINING_FEATURE_NAMES, fill_value=0)` looks each
schema column up in that concatenation and falls back to `0`. -/
def alignedCell (vA vT vE : List String) (data : DataFrame) (r : String → Cell)
    (c : String) : Cell :=
  if c ∈ numPresent data then r c
  else
    match (encPairs vA vT vE).find? (fun p => encName p == c) with
    | some p => Cell.num (if r p.1 = Cell.str p.2 then 1 else 0)
    | none => Cell.num 0

/-- `preprocessing.py` lines 54-112, `preprocess_input` after the type guard:
empty input returns an empty frame carrying the full training schema;
otherwise impute, synthesize missing categorical columns, one-hot encode and
reindex to `TRAINING_FEATURE_NAMES`. -/
def preprocessDF (vA vT vE : List String) (data : DataFrame) : DataFrame :=
  if data.rows.isEmpty ∨ data.cols.isEmpty then
    { cols := TRAINING_FEATURE_NAMES, rows := [] }
  else
    { cols := TRAINING_FEATURE_NAMES,
      rows := data.rows.map (fun r =>
        alignedCell vA vT vE data (synthRow data (imputedRow data r))) }

/-- A Python value passed to `preprocess_input`: either a pandas DataFrame or
anything else. -/
inductive PyObj where
  | df (d : DataFrame)
  | other

/-- The Python exceptions raised on the modelled paths. -/
inductive PyErr where
  | typeErr
  | keyErr
  | lengthMismatch
  | attributeErr
deriving DecidableEq

/-- `preprocessing.py` lines 54-55 + body: `preprocess_input` raises
`TypeError` unless its argument is a DataFrame, and otherwise returns the
aligned frame. -/
def preprocess_input (vA vT vE : List String) (o : PyObj) : Except PyErr DataFrame :=
  match o with
  | .other => .error .typeErr
  | .df d => .ok (preprocessDF vA vT vE d)

/-!
Model of numpy's indirect introsort (`aquicksort` in `npysort/quicksort.c.src`),
the implementation behind `numpy.argsort(kind='quicksort')`, which is what
`pandas.DataFrame.sort_values` (default `kind='quicksort'`) runs on a single
numeric key column without NaNs.  The `tosort` index array is represented as
a `List Nat`; the key values as `v : Nat → ℚ`
(`DOUBLE_LT(a, b)` is `a < b` in the absence of NaN).
-/

/-- Value of the key at array position `k`: `v[tosort[k]]`. -/
def vAt (v : Nat → ℚ) (t : List Nat) (k : Nat) : ℚ := v (t.getD k 0)

/-- `INTP_SWAP(*i, *j)`: exchange the indices stored at positions `i` and `j`. -/
def swp (t : List Nat) (i j : Nat) : List Nat :=
  (t.set i (t.getD j 0)).set j (t.getD i 0)

/-- `do ++pi; while (LT(v[*pi], vp));` — first position after `i` whose value
is not `< vp`.  `fuel` bounds the walk; with enough fuel and a stopper in
range the result is exact. -/
def scanUp (v : Nat → ℚ) (t : List Nat) (vp : ℚ) : Nat → Nat → Nat
  | 0, i => i + 1
  | fuel + 1, i => if vAt v t (i + 1) < vp then scanUp v t vp fuel (i + 1) else i + 1

/-- `do --pj; while (LT(vp, v[*pj]));` — first position before `j` whose value
is not `> vp`. -/
def scanDown (v : Nat → ℚ) (t : List Nat) (vp : ℚ) : Nat → Nat → Nat
  | 0, j => j - 1
  | fuel + 1, j => if vp < vAt v t (j - 1) then scanDown v t vp fuel (j - 1) else j - 1

/-- The Hoare scan loop of `aquicksort`: scan up from `i`, scan down from `j`,
stop when the pointers cross (`pi >= pj`), otherwise swap and continue.
Returns the final array and the crossing position `pi`. -/
def hoareLoop (v : Nat → ℚ) (vp : ℚ) (hi : Nat) :
    Nat → List Nat → Nat → Nat → (List Nat × Nat)
  | 0, t, i, _ => (t, i + 1)
  | fuel + 1, t, i, j =>
    let i' := scanUp v t vp hi i
    let j' := scanDown v t vp hi j
    if j' ≤ i' then (t, i')
    else hoareLoop v vp hi fuel (swp t i' j') i' j'

/-- `if (LT(v[*pm], v[*pl])) INTP_SWAP(*pm, *pl);` — order the pair
`(lo, pm)` by value. -/
def med3a (v : Nat → ℚ) (t : List Nat) (lo pm : Nat) : List Nat :=
  if vAt v t pm < vAt v t lo then swp t pm lo else t

/-- `if (LT(v[*pr], v[*pm])) INTP_SWAP(*pr, *pm);` — order the pair
`(pm, hi)` by value. -/
def med3b (v : Nat → ℚ) (t : List Nat) (pm hi : Nat) : List Nat :=
  if vAt v t hi < vAt v t pm then swp t hi pm else t

/-- The three conditional swaps that park the median of positions
`lo`, `pm`, `hi` at `pm`. -/
def med3 (v : Nat → ℚ) (t : List Nat) (lo pm hi : Nat) : List Nat :=
  med3a v (med3b v (med3a v t lo pm) pm hi) lo pm

/-- One `aquicksort` partition of the segment `[lo, hi]`: median-of-3 of
positions `lo`, `pm = lo + (hi-lo)/2`, `hi`; pivot parked at `hi - 1`;
Hoare scans; pivot swapped back to the crossing position.  Returns the new
array and the pivot position. -/
def partitionSeg (v : Nat → ℚ) (t : List Nat) (lo hi : Nat) : (List Nat × Nat) :=
  let pm := lo + (hi - lo) / 2
  let t3 := med3 v t lo pm hi
  let vp := vAt v t3 pm
  let t4 := swp t3 pm (hi - 1)
  let res := hoareLoop v vp hi (hi - lo) t4 lo (hi - 1)
  (swp res.1 res.2 (hi - 1), res.2)

/-- Inner shift loop of the insertion sort:
`while (pj > pl && LT(vp, v[*pk])) { *pj-- = *pk--; } *pj = vi;`. -/
def insInner (v : Nat → ℚ) (vp : ℚ) (vi : Nat) (lo : Nat) :
    Nat → List Nat → Nat → List Nat
  | 0, t, pj => t.set pj vi
  | fuel + 1, t, pj =>
    if lo < pj ∧ vp < vAt v t (pj - 1) then
      insInner v vp vi lo fuel (t.set pj (t.getD (pj - 1) 0)) (pj - 1)
    else t.set pj vi

/-- Outer insertion-sort loop: `for (pi = pl + 1; pi <= pr; ++pi)`. -/
def insLoop (v : Nat → ℚ) (lo hi : Nat) : Nat → List Nat → Nat → List Nat
  | 0, t, _ => t
  | fuel + 1, t, pi =>
    if pi ≤ hi then
      insLoop v lo hi fuel (insInner v (vAt v t pi) (t.getD pi 0) lo pi t pi) (pi + 1)
    else t

/-- Insertion sort of the segment `[lo, hi]`, used for segments of at most
`SMALL_QUICKSORT + 1 = 16` elements. -/
def insSortSeg (v : Nat → ℚ) (t : List Nat) (lo hi : Nat) : List Nat :=
  insLoop v lo hi (hi + 1 - lo) t (lo + 1)

/-- 1-based read `a[k]` with `a = tosort + lo - 1`, as in `aheapsort`. -/
def aGet (t : List Nat) (lo k : Nat) : Nat := t.getD (lo + k - 1) 0

/-- 1-based write `a[k] = x`. -/
def aSet (t : List Nat) (lo k x : Nat) : List Nat := t.set (lo + k - 1) x

/-- Sift-down loop shared by both phases of `aheapsort`:
`for (i, j init; j <= n;) { pick larger child; move up or break; } a[i] = tmp;`. -/
def siftLoop (v : Nat → ℚ) (lo tmp n : Nat) : Nat → List Nat → Nat → Nat → List Nat
  | 0, t, i, _ => aSet t lo i tmp
  | fuel + 1, t, i, j =>
    if j ≤ n then
      let j' := if j < n ∧ v (aGet t lo j) < v (aGet t lo (j + 1)) then j + 1 else j
      if v tmp < v (aGet t lo j') then
        siftLoop v lo tmp n fuel (aSet t lo i (aGet t lo j')) j' (j' + j')
      else aSet t lo i tmp
    else aSet t lo i tmp

/-- Heap construction phase of `aheapsort`: `for (l = n >> 1; l > 0; --l)`. -/
def heapBuild (v : Nat → ℚ) (lo n : Nat) : Nat → List Nat → Nat → List Nat
  | 0, t, _ => t
  | fuel + 1, t, l =>
    if 0 < l then
      heapBuild v lo n fuel (siftLoop v lo (aGet t lo l) n n t l (2 * l)) (l - 1)
    else t

/-- Extraction phase of `aheapsort`: `for (; n > 1;)`. -/
def heapExtract (v : Nat → ℚ) (lo : Nat) : Nat → List Nat → Nat → List Nat
  | 0, t, _ => t
  | fuel + 1, t, n =>
    if 1 < n then
      let tmp := aGet t lo n
      let t1 := aSet t lo n (aGet t lo 1)
      heapExtract v lo fuel (siftLoop v lo tmp (n - 1) (n - 1) t1 1 2) (n - 1)
    else t

/-- `aheapsort` on the `num`-element segment starting at `lo` — the depth-limit
fallback of the introsort (never reached for 20-element inputs, see the
`sortSeg` specification lemmas). -/
def aheapsortSeg (v : Nat → ℚ) (t : List Nat) (lo num : Nat) : List Nat :=
  heapExtract v lo num (heapBuild v lo num num t (num / 2)) num

/-- The `aquicksort` main loop on the segment `[lo, hi]`, with the shared
depth budget `b` threaded through sequentially (the C code keeps one
`depth_limit` counter across the explicit stack; the smaller partition is
processed first, the larger one afterwards, which this recursion mirrors).
Segments of more than `SMALL_QUICKSORT = 15` distance are partitioned
(or heapsorted once the budget is spent), smaller ones insertion-sorted. -/
def sortSeg (v : Nat → ℚ) : Nat → List Nat → Nat → Nat → Int → (List Nat × Int)
  | 0, t, _, _, b => (t, b)
  | fuel + 1, t, lo, hi, b =>
    if 15 < hi - lo then
      if b < 0 then (aheapsortSeg v t lo (hi + 1 - lo), b - 1)
      else
        let pr := partitionSeg v t lo hi
        let b' := b - 1
        if pr.2 - lo < hi - pr.2 then
          let left := sortSeg v fuel pr.1 lo (pr.2 - 1) b'
          sortSeg v fuel left.1 (pr.2 + 1) hi left.2
        else
          let right := sortSeg v fuel pr.1 (pr.2 + 1) hi b'
          sortSeg v fuel right.1 lo (pr.2 - 1) right.2
    else (insSortSeg v t lo hi, b)

/-- `numpy.argsort(kind='quicksort')` on a list of keys: run the introsort on
the identity index array with depth budget `npy_get_msb(n) * 2`. -/
def argsortQuick (s : List ℚ) : List Nat :=
  let n := s.length
  let v := fun i => s.getD i 0
  (sortSeg v n (List.range n) 0 (n - 1) (2 * Nat.log2 n)).1

/-!
Model of `utils.py`.
-/

/-- One row of `quali_session.results`: driver and team identity, the
provider's grid position, and the three qualifying segment times
(`None` when the driver set no time; `Q<i>.dt.total_seconds()` is NaN there). -/
structure FetchedRow where
  abbr : String
  team : String
  grid : ℚ
  q1 : Option ℚ
  q2 : Option ℚ
  q3 : Option ℚ
deriving DecidableEq

instance : Inhabited FetchedRow := ⟨⟨"", "", 0, none, none, none⟩⟩

/-- A loaded qualifying session: season, round, event name and per-driver
result rows, in the provider's order. -/
structure Session where
  year : ℚ
  round : ℚ
  eventName : String
  rows : List FetchedRow

/-- `utils.py` lines 73-86: the column selection applied to `results_df`. -/
def resultsCols : List String :=
  ["Season", "Round", "EventName", "Abbreviation", "TeamName", "GridPosition", "Q1_s", "Q2_s", "Q3_s"]

/-- `Q<i>.dt.total_seconds().fillna(9999.0)`: an unset segment time becomes
the sentinel `9999.0`. -/
def qCell : Option ℚ → Cell
  | some q => Cell.num q
  | none => Cell.num 9999

/-- Row `i` of `results_df` after the `utils.py` lines 61-88 transformations,
including the `GridPosition` overwrite with the fixed `float(1) .. float(20)`
sequence (`results_df['GridPosition'] = [float(i) for i in range(1, 21)]`). -/
def resultsRow (sess : Session) (i : Nat) (r : FetchedRow) : String → Cell := fun c =>
  if c = "Season" then Cell.num sess.year
  else if c = "Round" then Cell.num sess.round
  else if c = "EventName" then Cell.str sess.eventName
  else if c = "Abbreviation" then Cell.str r.abbr
  else if c = "TeamName" then Cell.str r.team
  else if c = "GridPosition" then Cell.num ((i : ℚ) + 1)
  else if c = "Q1_s" then qCell r.q1
  else if c = "Q2_s" then qCell r.q2
  else if c = "Q3_s" then qCell r.q3
  else Cell.nan

/-- The `results_df` frame handed to `preprocess_input` (valid once the
20-element `GridPosition` assignment has succeeded). -/
def buildResultsDF (sess : Session) : DataFrame :=
  { cols := resultsCols,
    rows := sess.rows.enum.map (fun p => resultsRow sess p.1 p.2) }

/-- `DataFrame.drop(c, axis=1)`: removes the column, `KeyError` if absent. -/
def dropCol (c : String) (d : DataFrame) : Except PyErr DataFrame :=
  if c ∈ d.cols then
    .ok { cols := d.cols.filter (fun x => decide (x ≠ c)), rows := d.rows }
  else .error .keyErr

/-- One entry of the final ranking: `{'position': ..., 'driver': ..., 'team': ...}`.
The driver is `none` when the left join against `get_name` found no match
(`FullName` NaN, serialized as null). -/
structure RankEntry where
  position : Nat
  driver : Option String
  team : String
deriving DecidableEq

instance : Inhabited RankEntry := ⟨⟨0, none, ""⟩⟩

/-- `utils.py` lines 50-112, `get_predictions` (given a loaded session):
build `results_df` (the 20-element `GridPosition` assignment raises
`ValueError` on any other row count); preprocess; drop `Position`; score
each row with the loaded model (`AttributeError` via `None.predict` when the
model artifact failed to load); sort ascending by score with pandas'
default quicksort; assign `PredictedPosition_int = 1..20` positionally
(again a 20-element assignment); left-join full names; and format, where
`format_prediction_output` re-sorts by `PredictedPosition_int` and emits the
entries in that order.  The model is abstracted as a function of the ordered
cell vector of a preprocessed row; `get_name` as a partial name lookup. -/
def getPredictionsModel (vA vT vE : List String) (sess : Session)
    (mload : Option (List Cell → ℚ)) (names : String → Option String) :
    Except PyErr (List RankEntry) :=
  if sess.rows.length = 20 then
    let pre := preprocessDF vA vT vE (buildResultsDF sess)
    match dropCol "Position" pre with
    | .error e => .error e
    | .ok pre2 =>
      match mload with
      | none => .error .attributeErr
      | some m =>
        let scores := pre2.rows.map (fun r => m (pre2.cols.map r))
        if scores.length = sess.rows.length then
          let idx := argsortQuick scores
          let ranked := idx.map (fun i => sess.rows.getD i default)
          if ranked.length = 20 then
            let merged := ranked.enum.map (fun p =>
              { position := p.1 + 1, driver := names p.2.abbr, team := p.2.team : RankEntry })
            let idx2 := argsortQuick (merged.map (fun e => (e.position : ℚ)))
            .ok (idx2.map (fun i => merged.getD i default))
          else .error .lengthMismatch
        else .error .lengthMismatch
  else .error .lengthMismatch

/-!
Model of `model_loader.py`.
-/

/-- Outcome of `joblib.load(model_path)`: success, `FileNotFoundError`, or any
other deserialization exception. -/
inductive LoadOutcome (α : Type) where
  | ok (m : α)
  | fileNotFound
  | otherError (msg : String)

/-- `model_loader.py` lines 20-32, `load_model`: return the deserialized model
on success; on `FileNotFoundError` or any other exception, log and return
`None`. -/
def load_model {α : Type} (outcome : LoadOutcome α) : Option α :=
  match outcome with
  | .ok m => some m
  | .fileNotFound => none
  | .otherError _ => none

/-!
Model of `app.py`.
-/

/-- A JSON value. -/
inductive JVal where
  | s (v : String)
  | n (v : ℚ)
  | arr (l : List JVal)
  | obj (l : List (String × JVal))

/-- Python `str()` of the race value as interpolated by the f-string
(only the scalar cases are needed by the modelled inputs). -/
def jstr : JVal → String
  | .s v => v
  | .n v => toString v
  | .arr _ => ""
  | .obj _ => ""

/-- The hardcoded rankings list returned by `app.py` lines 16-27. -/
def hardcodedRankings : List (Nat × String × String) := [
  (1, "Max Verstappen", "Red Bull"),
  (2, "Lewis Hamilton", "Mercedes"),
  (3, "Charles Leclerc", "Ferrari"),
  (4, "Lando Norris", "McLaren"),
  (5, "Oscar Piastri", "McLaren"),
  (6, "George Russell", "Mercedes"),
  (7, "Carlos Sainz", "Ferrari"),
  (8, "Fernando Alonso", "Aston Martin"),
  (9, "Lance Stroll", "Aston Martin"),
  (10, "Pierre Gasly", "Alpine")]

/-- `app.py` lines 7-31, the `predict` endpoint: read `data['race']`
(`KeyError` when absent), then return the hardcoded response object — the
handler never invokes `get_predictions`. -/
def predictHandler (body : List (String × JVal)) : Except PyErr JVal :=
  match body.lookup "race" with
  | none => .error .keyErr
  | some race =>
    .ok (.obj [
      ("race", race),
      ("prediction", .s ("Prediction for " ++ jstr race ++ " completed!")),
      ("rankings", .arr (hardcodedRankings.map (fun e =>
        .obj [("position", .n e.1), ("driver", .s e.2.1), ("team", .s e.2.2)])))])

/-!
### Correctness lemmas for the introsort model

The specification triple proved about `sortSeg` on a segment: entries outside
the segment are untouched, the segment is a permutation of what it was, and
its values end up nondecreasing.  The heapsort fallback is shown unreachable
for the budgets and sizes the repository exercises (20 rows).
-/

/-- Entry of the index array at position `k` (0 beyond the end). -/
def gl (t : List Nat) (k : Nat) : Nat := t.getD k 0

/-- The segment `tosort[lo..hi]` as the list of stored indices. -/
def seg (t : List Nat) (lo hi : Nat) : List Nat := (List.Ico lo (hi + 1)).map (gl t)

/-- The values along the segment `[lo, hi]` are nondecreasing. -/
def SortedSeg (v : Nat → ℚ) (t : List Nat) (lo hi : Nat) : Prop :=
  ∀ i j, lo ≤ i → i ≤ j → j ≤ hi → vAt v t i ≤ vAt v t j

theorem vAt_def (v : Nat → ℚ) (t : List Nat) (k : Nat) : vAt v t k = v (gl t k) := rfl

theorem gl_set_self {t : List Nat} {i : Nat} (x : Nat) (h : i < t.length) :
    gl (t.set i x) i = x := by
  simp [gl, List.getD, List.getElem?_set_self', h]

theorem gl_set_ne {t : List Nat} {i k : Nat} (x : Nat) (h : i ≠ k) :
    gl (t.set i x) k = gl t k := by
  simp [gl, List.getD, List.getElem?_set_ne h]

theorem length_swp (t : List Nat) (i j : Nat) : (swp t i j).length = t.length := by
  simp [swp]

theorem gl_swp_fst {t : List Nat} {i j : Nat} (hi' : i < t.length) (hj : j < t.length) :
    gl (swp t i j) i = gl t j := by
  unfold swp
  by_cases hij : i = j
  · subst hij
    rw [gl_set_self _ (by simpa using hi')]
    simp [gl, List.getD_eq_getElem _ _ hi']
  · rw [gl_set_ne _ (fun e => hij e.symm), gl_set_self _ hi']
    rfl

theorem gl_swp_snd {t : List Nat} {i j : Nat} (hj : j < t.length) :
    gl (swp t i j) j = gl t i := by
  unfold swp
  rw [gl_set_self _ (by simpa using hj)]
  simp [gl, List.getD_eq_getElem]

theorem gl_swp_other {t : List Nat} {i j k : Nat} (hki : k ≠ i) (hkj : k ≠ j) :
    gl (swp t i j) k = gl t k := by
  unfold swp
  rw [gl_set_ne _ (fun e => hkj e.symm), gl_set_ne _ (fun e => hki e.symm)]

theorem gl_lt_length {t : List Nat} {k : Nat} (h : k < t.length)
    (hall : ∀ x ∈ t, x < t.length) : gl t k < t.length := by
  refine hall _ ?_
  simp only [gl, List.getD_eq_getElem _ _ h]
  exact List.getElem_mem h

theorem seg_congr {t t' : List Nat} {lo hi : Nat}
    (h : ∀ k, lo ≤ k → k ≤ hi → gl t' k = gl t k) : seg t' lo hi = seg t lo hi := by
  refine List.map_congr_left (fun k hk => ?_)
  rw [List.Ico.mem] at hk
  exact h k hk.1 (by omega)

/-- Swapping two elements in the middle of lists is a permutation. -/
theorem perm_swap_middle {α : Type} (a b : α) (A B C : List α) :
    List.Perm (A ++ a :: (B ++ b :: C)) (A ++ b :: (B ++ a :: C)) := by
  refine List.Perm.append_left A ?_
  exact ((List.Perm.cons a List.perm_middle).trans (List.Perm.swap b a _)).trans
    (List.Perm.cons b List.perm_middle.symm)

theorem seg_decomp {lo i j hi : Nat} (h1 : lo ≤ i) (h2 : i < j) (h3 : j ≤ hi) (t : List Nat) :
    seg t lo hi = (List.Ico lo i).map (gl t) ++ gl t i ::
      ((List.Ico (i + 1) j).map (gl t) ++ gl t j :: (List.Ico (j + 1) (hi + 1)).map (gl t)) := by
  unfold seg
  rw [← List.Ico.append_consecutive (show lo ≤ i by omega) (show i ≤ hi + 1 by omega),
      List.Ico.eq_cons (show i < hi + 1 by omega),
      ← List.Ico.append_consecutive (show i + 1 ≤ j by omega) (show j ≤ hi + 1 by omega),
      List.Ico.eq_cons (show j < hi + 1 by omega)]
  simp

theorem seg_swp_perm {t : List Nat} {lo i j hi : Nat} (h1 : lo ≤ i) (h2 : i ≤ j) (h3 : j ≤ hi)
    (hil : i < t.length) (hjl : j < t.length) :
    List.Perm (seg (swp t i j) lo hi) (seg t lo hi) := by
  rcases eq_or_lt_of_le h2 with rfl | hij
  · refine List.Perm.of_eq (seg_congr (fun k _ _ => ?_))
    by_cases hk : k = i
    · subst hk; exact gl_swp_snd hjl
    · exact gl_swp_other hk hk
  · have e1 : (List.Ico lo i).map (gl (swp t i j)) = (List.Ico lo i).map (gl t) :=
      List.map_congr_left (fun k hk => by
        rw [List.Ico.mem] at hk
        exact gl_swp_other (by omega) (by omega))
    have e2 : (List.Ico (i + 1) j).map (gl (swp t i j)) = (List.Ico (i + 1) j).map (gl t) :=
      List.map_congr_left (fun k hk => by
        rw [List.Ico.mem] at hk
        exact gl_swp_other (by omega) (by omega))
    have e3 : (List.Ico (j + 1) (hi + 1)).map (gl (swp t i j)) =
        (List.Ico (j + 1) (hi + 1)).map (gl t) :=
      List.map_congr_left (fun k hk => by
        rw [List.Ico.mem] at hk
        exact gl_swp_other (by omega) (by omega))
    rw [seg_decomp h1 hij h3, seg_decomp h1 hij h3, e1, e2, e3,
        gl_swp_fst hil hjl, gl_swp_snd hjl]
    exact perm_swap_middle (gl t j) (gl t i) _ _ _

theorem seg_perm_within {t t' : List Nat} {lo a b hi : Nat} (h1 : lo ≤ a) (h3 : b ≤ hi)
    (houts : ∀ k, k < a ∨ b < k → gl t' k = gl t k)
    (hperm : List.Perm (seg t' a b) (seg t a b)) :
    List.Perm (seg t' lo hi) (seg t lo hi) := by
  by_cases h2 : a ≤ b
  · have e1 : (List.Ico lo a).map (gl t') = (List.Ico lo a).map (gl t) :=
      List.map_congr_left (fun k hk => by
        rw [List.Ico.mem] at hk
        exact houts k (by omega))
    have e3 : (List.Ico (b + 1) (hi + 1)).map (gl t') = (List.Ico (b + 1) (hi + 1)).map (gl t) :=
      List.map_congr_left (fun k hk => by
        rw [List.Ico.mem] at hk
        exact houts k (by omega))
    unfold seg
    rw [← List.Ico.append_consecutive (show lo ≤ a by omega) (show a ≤ hi + 1 by omega),
        ← List.Ico.append_consecutive (show a ≤ b + 1 by omega) (show b + 1 ≤ hi + 1 by omega)]
    simp only [List.map_append]
    rw [e1, e3]
    exact List.Perm.append_left _ (List.Perm.append_right _ hperm)
  · refine List.Perm.of_eq (seg_congr (fun k _ _ => houts k (by omega)))

theorem gl_mem_seg {t : List Nat} {lo k hi : Nat} (h1 : lo ≤ k) (h2 : k ≤ hi) :
    gl t k ∈ seg t lo hi :=
  List.mem_map_of_mem _ (List.Ico.mem.2 ⟨h1, by omega⟩)

theorem val_le_of_seg_perm {t t' : List Nat} {a b : Nat} {v : Nat → ℚ} {c : ℚ}
    (hperm : List.Perm (seg t' a b) (seg t a b))
    (hall : ∀ k, a ≤ k → k ≤ b → vAt v t k ≤ c) :
    ∀ k, a ≤ k → k ≤ b → vAt v t' k ≤ c := by
  intro k hk1 hk2
  have hm : gl t' k ∈ seg t a b := hperm.mem_iff.1 (gl_mem_seg hk1 hk2)
  obtain ⟨k', hk', he⟩ := List.mem_map.1 hm
  rw [List.Ico.mem] at hk'
  rw [vAt_def, ← he]
  exact hall k' hk'.1 (by omega)

theorem val_ge_of_seg_perm {t t' : List Nat} {a b : Nat} {v : Nat → ℚ} {c : ℚ}
    (hperm : List.Perm (seg t' a b) (seg t a b))
    (hall : ∀ k, a ≤ k → k ≤ b → c ≤ vAt v t k) :
    ∀ k, a ≤ k → k ≤ b → c ≤ vAt v t' k := by
  intro k hk1 hk2
  have hm : gl t' k ∈ seg t a b := hperm.mem_iff.1 (gl_mem_seg hk1 hk2)
  obtain ⟨k', hk', he⟩ := List.mem_map.1 hm
  rw [List.Ico.mem] at hk'
  rw [vAt_def, ← he]
  exact hall k' hk'.1 (by omega)

/-- Index-shift for interval maps: mapping over `Ico (a+1) (b+1)` is mapping
the successor over `Ico a b`. -/
theorem map_Ico_shift (f : Nat → Nat) (a b : Nat) :
    (List.Ico (a + 1) (b + 1)).map f = (List.Ico a b).map (fun k => f (k + 1)) := by
  show (List.range' (a + 1) (b + 1 - (a + 1))).map f = _
  have h1 : b + 1 - (a + 1) = b - a := by omega
  have h2 : a + 1 = 1 + a := by omega
  rw [h1, h2, ← List.map_add_range' 1 a (b - a) 1, List.map_map]
  exact List.map_congr_left (fun k _ => by simp [Nat.add_comm])

theorem scanUp_spec (v : Nat → ℚ) (t : List Nat) (vp : ℚ) :
    ∀ fuel i b, i < b → b ≤ i + 1 + fuel → ¬ (vAt v t b < vp) →
      i < scanUp v t vp fuel i ∧ scanUp v t vp fuel i ≤ b ∧
      ¬ (vAt v t (scanUp v t vp fuel i) < vp) ∧
      ∀ k, i < k → k < scanUp v t vp fuel i → vAt v t k < vp := by
  intro fuel
  induction fuel with
  | zero =>
    intro i b hib hfuel hstop
    have hb : b = i + 1 := by omega
    subst hb
    simp only [scanUp]
    exact ⟨Nat.lt_succ_self i, le_refl _, hstop, fun k h1 h2 => absurd h2 (by omega)⟩
  | succ fuel ih =>
    intro i b hib hfuel hstop
    simp only [scanUp]
    by_cases hc : vAt v t (i + 1) < vp
    · rw [if_pos hc]
      have hib' : i + 1 < b := by
        by_contra hcon
        have hb : b = i + 1 := by omega
        exact hstop (by rw [hb]; exact hc)
      obtain ⟨r1, r2, r3, r4⟩ := ih (i + 1) b hib' (by omega) hstop
      refine ⟨by omega, r2, r3, fun k h1 h2 => ?_⟩
      rcases Nat.eq_or_lt_of_le (show i + 1 ≤ k from h1) with e | h
      · rw [← e]; exact hc
      · exact r4 k h h2
    · rw [if_neg hc]
      exact ⟨Nat.lt_succ_self i, by omega, hc, fun k h1 h2 => absurd h2 (by omega)⟩

theorem scanDown_spec (v : Nat → ℚ) (t : List Nat) (vp : ℚ) :
    ∀ fuel j a, a < j → j ≤ a + 1 + fuel → ¬ (vp < vAt v t a) →
      scanDown v t vp fuel j < j ∧ a ≤ scanDown v t vp fuel j ∧
      ¬ (vp < vAt v t (scanDown v t vp fuel j)) ∧
      ∀ k, scanDown v t vp fuel j < k → k < j → vp < vAt v t k := by
  intro fuel
  induction fuel with
  | zero =>
    intro j a haj hfuel hstop
    have hj : j = a + 1 := by omega
    subst hj
    have : a + 1 - 1 = a := by omega
    rw [scanDown, this]
    exact ⟨by omega, le_refl _, hstop, fun k h1 h2 => absurd h1 (by omega)⟩
  | succ fuel ih =>
    intro j a haj hfuel hstop
    simp only [scanDown]
    by_cases hc : vp < vAt v t (j - 1)
    · rw [if_pos hc]
      have haj' : a < j - 1 := by
        by_contra hcon
        have hj : j - 1 = a := by omega
        exact hstop (by rw [← hj]; exact hc)
      obtain ⟨r1, r2, r3, r4⟩ := ih (j - 1) a haj' (by omega) hstop
      refine ⟨by omega, r2, r3, fun k h1 h2 => ?_⟩
      rcases Nat.eq_or_lt_of_le (show k ≤ j - 1 by omega) with e | h
      · rw [e]; exact hc
      · exact r4 k h1 h
    · rw [if_neg hc]
      exact ⟨by omega, by omega, hc, fun k h1 h2 => absurd h2 (by omega)⟩

theorem insInner_spec (v : Nat → ℚ) (vp : ℚ) (vi : Nat) (lo : Nat) :
    ∀ fuel t pj, lo ≤ pj → pj < t.length → pj - lo ≤ fuel →
      ∃ pjf, lo ≤ pjf ∧ pjf ≤ pj ∧
        (insInner v vp vi lo fuel t pj).length = t.length ∧
        (∀ k, k < pjf → gl (insInner v vp vi lo fuel t pj) k = gl t k) ∧
        (∀ k, pj < k → gl (insInner v vp vi lo fuel t pj) k = gl t k) ∧
        gl (insInner v vp vi lo fuel t pj) pjf = vi ∧
        (∀ k, pjf < k → k ≤ pj → gl (insInner v vp vi lo fuel t pj) k = gl t (k - 1)) ∧
        (pjf = lo ∨ ¬ (vp < vAt v t (pjf - 1))) ∧
        (∀ k, pjf ≤ k → k < pj → vp < vAt v t k) := by
  intro fuel
  induction fuel with
  | zero =>
    intro t pj hlo hlen hfuel
    have hpj : pj = lo := by omega
    subst hpj
    refine ⟨pj, le_refl _, le_refl _, by simp [insInner], ?_, ?_, ?_, ?_, Or.inl rfl, ?_⟩
    · intro k hk; exact gl_set_ne _ (by omega)
    · intro k hk; exact gl_set_ne _ (by omega)
    · exact gl_set_self _ hlen
    · intro k h1 h2; omega
    · intro k h1 h2; omega
  | succ fuel ih =>
    intro t pj hlo hlen hfuel
    simp only [insInner]
    by_cases hc : lo < pj ∧ vp < vAt v t (pj - 1)
    · rw [if_pos hc]
      have hlen' : pj - 1 < (t.set pj (t.getD (pj - 1) 0)).length := by
        rw [List.length_set]; omega
      obtain ⟨pjf, q1, q2, q3, q4, q5, q6, q7, q8, q9⟩ :=
        ih (t.set pj (t.getD (pj - 1) 0)) (pj - 1) (by omega) hlen' (by omega)
      have hset_at : gl (t.set pj (t.getD (pj - 1) 0)) pj = gl t (pj - 1) :=
        gl_set_self _ hlen
      have hset_ne : ∀ k, k ≠ pj → gl (t.set pj (t.getD (pj - 1) 0)) k = gl t k :=
        fun k hk => gl_set_ne _ (fun e => hk e.symm)
      refine ⟨pjf, q1, by omega, by rw [q3, List.length_set], ?_, ?_, q6, ?_, ?_, ?_⟩
      · intro k hk
        rw [q4 k hk, hset_ne k (by omega)]
      · intro k hk
        rw [q5 k (by omega), hset_ne k (by omega)]
      · intro k h1 h2
        rcases Nat.eq_or_lt_of_le h2 with e | h
        · rw [e, q5 pj (by omega), hset_at]
        · rw [q7 k h1 (by omega), hset_ne (k - 1) (by omega)]
      · rcases q8 with e | hnot
        · exact Or.inl e
        · refine Or.inr ?_
          rw [vAt_def, hset_ne (pjf - 1) (by omega)] at hnot
          exact hnot
      · intro k h1 h2
        rcases Nat.eq_or_lt_of_le (show k ≤ pj - 1 by omega) with e | h
        · rw [e]; exact hc.2
        · have := q9 k h1 (by omega)
          rw [vAt_def, hset_ne k (by omega)] at this
          exact this
    · rw [if_neg hc]
      refine ⟨pj, hlo, le_refl _, by simp, ?_, ?_, gl_set_self _ hlen, ?_, ?_, ?_⟩
      · intro k hk; exact gl_set_ne _ (by omega)
      · intro k hk; exact gl_set_ne _ (by omega)
      · intro k h1 h2; omega
      · rcases Decidable.not_and_iff_or_not.1 hc with h | h
        · exact Or.inl (by omega)
        · exact Or.inr h
      · intro k h1 h2; omega

theorem insStep_spec (v : Nat → ℚ) {lo hi pi : Nat} {t : List Nat}
    (hlo : lo < pi) (hpi : pi ≤ hi) (hhi : hi < t.length)
    (hsort : SortedSeg v t lo (pi - 1)) :
    (insInner v (vAt v t pi) (t.getD pi 0) lo pi t pi).length = t.length ∧
    (∀ k, k < lo ∨ pi < k → gl (insInner v (vAt v t pi) (t.getD pi 0) lo pi t pi) k = gl t k) ∧
    List.Perm (seg (insInner v (vAt v t pi) (t.getD pi 0) lo pi t pi) lo pi) (seg t lo pi) ∧
    SortedSeg v (insInner v (vAt v t pi) (t.getD pi 0) lo pi t pi) lo pi := by
  obtain ⟨pjf, q1, q2, q3, q4, q5, q6, q7, q8, q9⟩ :=
    insInner_spec v (vAt v t pi) (t.getD pi 0) lo pi t pi (le_of_lt hlo) (by omega) (by omega)
  set r := insInner v (vAt v t pi) (t.getD pi 0) lo pi t pi with hr
  have hA : ∀ k, k < pjf → vAt v r k = vAt v t k := fun k hk => by
    rw [vAt_def, q4 k hk]; rfl
  have hB : vAt v r pjf = vAt v t pi := by
    rw [vAt_def, q6]; rfl
  have hC : ∀ k, pjf < k → k ≤ pi → vAt v r k = vAt v t (k - 1) := fun k h1 h2 => by
    rw [vAt_def, q7 k h1 h2]; rfl
  have hstop : pjf = lo ∨ vAt v t (pjf - 1) ≤ vAt v t pi := by
    rcases q8 with e | h
    · exact Or.inl e
    · exact Or.inr (not_lt.1 h)
  refine ⟨q3, ?_, ?_, ?_⟩
  · intro k hk
    rcases hk with h | h
    · exact q4 k (by omega)
    · exact q5 k h
  · -- permutation of the segment [lo, pi]
    have efront : (List.Ico lo pjf).map (gl r) = (List.Ico lo pjf).map (gl t) :=
      List.map_congr_left (fun k hk => by
        rw [List.Ico.mem] at hk
        exact q4 k hk.2)
    have eshift : (List.Ico (pjf + 1) (pi + 1)).map (gl r) = (List.Ico pjf pi).map (gl t) := by
      rw [map_Ico_shift]
      refine List.map_congr_left (fun k hk => ?_)
      rw [List.Ico.mem] at hk
      have : k + 1 - 1 = k := by omega
      rw [q7 (k + 1) (by omega) (by omega), this]
    have d1 : seg r lo pi =
        (List.Ico lo pjf).map (gl t) ++ gl t pi :: (List.Ico pjf pi).map (gl t) := by
      unfold seg
      rw [← List.Ico.append_consecutive (show lo ≤ pjf from q1) (show pjf ≤ pi + 1 by omega),
          List.Ico.eq_cons (show pjf < pi + 1 by omega)]
      rw [List.map_append, List.map_cons, efront, q6, eshift]
      rfl
    have d2 : seg t lo pi =
        (List.Ico lo pjf).map (gl t) ++ ((List.Ico pjf pi).map (gl t) ++ [gl t pi]) := by
      unfold seg
      rw [← List.Ico.append_consecutive (show lo ≤ pjf from q1) (show pjf ≤ pi + 1 by omega),
          List.Ico.succ_top (show pjf ≤ pi by omega)]
      rw [List.map_append, List.map_append]
      rfl
    rw [d1, d2]
    refine List.Perm.append_left _ ?_
    have := @List.perm_middle _ (gl t pi) ((List.Ico pjf pi).map (gl t)) []
    simpa using this.symm
  · -- sortedness of the segment [lo, pi]
    intro i j hi1 hij hj2
    by_cases hipjf : i < pjf
    · have hstep : vAt v t i ≤ vAt v t pi := by
        have h1 : vAt v t i ≤ vAt v t (pjf - 1) := hsort i (pjf - 1) hi1 (by omega) (by omega)
        rcases hstop with e | hle
        · omega
        · exact le_trans h1 hle
      by_cases hjpjf : j < pjf
      · rw [hA i hipjf, hA j hjpjf]
        exact hsort i j hi1 hij (by omega)
      · rcases Nat.eq_or_lt_of_le (show pjf ≤ j by omega) with e | hjgt
        · rw [hA i hipjf, ← e, hB]
          exact hstep
        · rw [hA i hipjf, hC j hjgt hj2]
          exact le_trans hstep (le_of_lt (q9 (j - 1) (by omega) (by omega)))
    · rcases Nat.eq_or_lt_of_le (show pjf ≤ i by omega) with ei | higt
      · rcases Nat.eq_or_lt_of_le hij with ej | hjgt2
        · exact le_of_eq (by rw [ej])
        · rw [← ei, hB, hC j (by omega) hj2]
          exact le_of_lt (q9 (j - 1) (by omega) (by omega))
      · rw [hC i higt (by omega), hC j (by omega) hj2]
        exact hsort (i - 1) (j - 1) (by omega) (by omega) (by omega)

theorem insLoop_spec (v : Nat → ℚ) (lo hi : Nat) :
    ∀ fuel t pi, lo < pi → hi < t.length → hi + 1 ≤ pi + fuel →
      SortedSeg v t lo (pi - 1) →
      (insLoop v lo hi fuel t pi).length = t.length ∧
      (∀ k, k < lo ∨ hi < k → gl (insLoop v lo hi fuel t pi) k = gl t k) ∧
      List.Perm (seg (insLoop v lo hi fuel t pi) lo hi) (seg t lo hi) ∧
      SortedSeg v (insLoop v lo hi fuel t pi) lo hi := by
  intro fuel
  induction fuel with
  | zero =>
    intro t pi hlo hlen hfuel hsort
    exact ⟨rfl, fun k _ => rfl, List.Perm.refl _,
      fun i j h1 h2 h3 => hsort i j h1 h2 (by omega)⟩
  | succ fuel ih =>
    intro t pi hlo hlen hfuel hsort
    rw [insLoop]
    by_cases hc : pi ≤ hi
    · rw [if_pos hc]
      obtain ⟨s1, s2, s3, s4⟩ := insStep_spec v hlo hc hlen hsort
      have hsort' : SortedSeg v (insInner v (vAt v t pi) (t.getD pi 0) lo pi t pi)
          lo (pi + 1 - 1) := by
        have : pi + 1 - 1 = pi := by omega
        rw [this]
        exact s4
      obtain ⟨r1, r2, r3, r4⟩ := ih (insInner v (vAt v t pi) (t.getD pi 0) lo pi t pi)
        (pi + 1) (by omega) (by rw [s1]; exact hlen) (by omega) hsort'
      refine ⟨by rw [r1, s1], ?_, ?_, r4⟩
      · intro k hk
        rw [r2 k hk, s2 k (by omega)]
      · refine List.Perm.trans r3 ?_
        exact seg_perm_within (le_refl lo) hc (fun k hk => s2 k hk) s3
    · rw [if_neg hc]
      exact ⟨rfl, fun k _ => rfl, List.Perm.refl _,
        fun i j h1 h2 h3 => hsort i j h1 h2 (by omega)⟩

theorem insSortSeg_spec (v : Nat → ℚ) {t : List Nat} {lo hi : Nat}
    (hlohi : lo ≤ hi) (hlen : hi < t.length) :
    (insSortSeg v t lo hi).length = t.length ∧
    (∀ k, k < lo ∨ hi < k → gl (insSortSeg v t lo hi) k = gl t k) ∧
    List.Perm (seg (insSortSeg v t lo hi) lo hi) (seg t lo hi) ∧
    SortedSeg v (insSortSeg v t lo hi) lo hi := by
  refine insLoop_spec v lo hi (hi + 1 - lo) t (lo + 1) (by omega) hlen (by omega) ?_
  intro i j h1 h2 h3
  have : i = j := by omega
  rw [this]

theorem hoareLoop_spec (v : Nat → ℚ) (vp : ℚ) (lo hi : Nat) :
    ∀ fuel t i j, lo ≤ i → i < j → j ≤ hi - 1 → hi < t.length → lo + 2 ≤ hi →
      j - i ≤ fuel →
      (∀ k, lo ≤ k → k ≤ i → vAt v t k ≤ vp) →
      (∀ k, j ≤ k → k ≤ hi - 1 → vp ≤ vAt v t k) →
      (hoareLoop v vp hi fuel t i j).1.length = t.length ∧
      (∀ k, k ≤ i ∨ j ≤ k → gl (hoareLoop v vp hi fuel t i j).1 k = gl t k) ∧
      List.Perm (seg (hoareLoop v vp hi fuel t i j).1 lo hi) (seg t lo hi) ∧
      lo < (hoareLoop v vp hi fuel t i j).2 ∧
      (hoareLoop v vp hi fuel t i j).2 ≤ hi - 1 ∧
      (∀ k, lo ≤ k → k < (hoareLoop v vp hi fuel t i j).2 →
        vAt v (hoareLoop v vp hi fuel t i j).1 k ≤ vp) ∧
      (∀ k, (hoareLoop v vp hi fuel t i j).2 < k → k ≤ hi - 1 →
        vp ≤ vAt v (hoareLoop v vp hi fuel t i j).1 k) ∧
      vp ≤ vAt v (hoareLoop v vp hi fuel t i j).1 (hoareLoop v vp hi fuel t i j).2 := by
  intro fuel
  induction fuel with
  | zero =>
    intro t i j h1 h2 h3 h4 h5 hfuel hA hB
    omega
  | succ fuel ih =>
    intro t i j h1 h2 h3 h4 h5 hfuel hA hB
    have hstopUp : ¬ (vAt v t (hi - 1) < vp) := not_lt.2 (hB (hi - 1) h3 (le_refl _))
    have hstopDn : ¬ (vp < vAt v t lo) := not_lt.2 (hA lo (le_refl _) h1)
    obtain ⟨u1, u2, u3, u4⟩ :=
      scanUp_spec v t vp hi i (hi - 1) (by omega) (by omega) hstopUp
    obtain ⟨d1, d2, d3, d4⟩ :=
      scanDown_spec v t vp hi j lo (by omega) (by omega) hstopDn
    rw [hoareLoop]
    by_cases hc : scanDown v t vp hi j ≤ scanUp v t vp hi i
    · rw [if_pos hc]
      refine ⟨rfl, fun k _ => rfl, List.Perm.refl _, by omega, u2, ?_, ?_, not_lt.1 u3⟩
      · intro k hk1 hk2
        by_cases hki : k ≤ i
        · exact hA k hk1 hki
        · exact le_of_lt (u4 k (by omega) hk2)
      · intro k hk1 hk2
        by_cases hkj : j ≤ k
        · exact hB k hkj hk2
        · exact le_of_lt (d4 k (by omega) (by omega))
    · rw [if_neg hc]
      have hij' : scanUp v t vp hi i < scanDown v t vp hi j := by omega
      have hlenS : (swp t (scanUp v t vp hi i) (scanDown v t vp hi j)).length = t.length :=
        length_swp t _ _
      have hiLen : scanUp v t vp hi i < t.length := by omega
      have hjLen : scanDown v t vp hi j < t.length := by omega
      have hA' : ∀ k, lo ≤ k → k ≤ scanUp v t vp hi i →
          vAt v (swp t (scanUp v t vp hi i) (scanDown v t vp hi j)) k ≤ vp := by
        intro k hk1 hk2
        rcases Nat.eq_or_lt_of_le hk2 with e | hlt
        · rw [e, vAt_def, gl_swp_fst hiLen hjLen]
          exact not_lt.1 d3
        · rw [vAt_def, gl_swp_other (by omega) (by omega)]
          by_cases hki : k ≤ i
          · exact hA k hk1 hki
          · exact le_of_lt (u4 k (by omega) hlt)
      have hB' : ∀ k, scanDown v t vp hi j ≤ k → k ≤ hi - 1 →
          vp ≤ vAt v (swp t (scanUp v t vp hi i) (scanDown v t vp hi j)) k := by
        intro k hk1 hk2
        rcases Nat.eq_or_lt_of_le hk1 with e | hlt
        · rw [← e, vAt_def, gl_swp_snd hjLen]
          exact not_lt.1 u3
        · rw [vAt_def, gl_swp_other (by omega) (by omega)]
          by_cases hkj : j ≤ k
          · exact hB k hkj hk2
          · exact le_of_lt (d4 k (by omega) (by omega))
      obtain ⟨r1, r2, r3, r4, r5, r6, r7, r8⟩ :=
        ih (swp t (scanUp v t vp hi i) (scanDown v t vp hi j))
          (scanUp v t vp hi i) (scanDown v t vp hi j)
          (by omega) hij' (by omega) (by rw [hlenS]; exact h4) h5 (by omega) hA' hB'
      refine ⟨by rw [r1, hlenS], ?_, ?_, r4, r5, r6, r7, r8⟩
      · intro k hk
        rw [r2 k (by omega), gl_swp_other (by omega) (by omega)]
      · refine List.Perm.trans r3 ?_
        exact seg_swp_perm (by omega) (le_of_lt hij') (by omega) hiLen hjLen

theorem gl_swp_comm {t : List Nat} {i j : Nat} (hi' : i < t.length) (hj : j < t.length)
    (k : Nat) : gl (swp t i j) k = gl (swp t j i) k := by
  by_cases hki : k = i
  · subst hki; rw [gl_swp_fst hi' hj, gl_swp_snd hi']
  · by_cases hkj : k = j
    · subst hkj; rw [gl_swp_snd hj, gl_swp_fst hj hi']
    · rw [gl_swp_other hki hkj, gl_swp_other hkj hki]

theorem med3a_spec (v : Nat → ℚ) (t : List Nat) {lo pm : Nat}
    (hne : lo < pm) (hpm : pm < t.length) :
    (med3a v t lo pm).length = t.length ∧
    (∀ k, k ≠ lo → k ≠ pm → gl (med3a v t lo pm) k = gl t k) ∧
    (∀ a b, a ≤ lo → pm ≤ b → List.Perm (seg (med3a v t lo pm) a b) (seg t a b)) ∧
    vAt v (med3a v t lo pm) lo ≤ vAt v (med3a v t lo pm) pm ∧
    ((vAt v (med3a v t lo pm) lo = vAt v t lo ∧ vAt v (med3a v t lo pm) pm = vAt v t pm) ∨
     (vAt v (med3a v t lo pm) lo = vAt v t pm ∧ vAt v (med3a v t lo pm) pm = vAt v t lo)) := by
  have hlo : lo < t.length := by omega
  unfold med3a
  by_cases hc : vAt v t pm < vAt v t lo
  · rw [if_pos hc]
    have e1 : gl (swp t pm lo) lo = gl t pm := gl_swp_snd hlo
    have e2 : gl (swp t pm lo) pm = gl t lo := gl_swp_fst hpm hlo
    refine ⟨length_swp t pm lo, ?_, ?_, ?_, Or.inr ⟨?_, ?_⟩⟩
    · intro k hk1 hk2
      exact gl_swp_other hk2 hk1
    · intro a b ha hb
      refine List.Perm.trans
        (List.Perm.of_eq (seg_congr (fun k _ _ => gl_swp_comm hpm hlo k))) ?_
      exact seg_swp_perm ha (le_of_lt hne) hb hlo hpm
    · rw [vAt_def, vAt_def, e1, e2]
      exact le_of_lt hc
    · rw [vAt_def, e1]; rfl
    · rw [vAt_def, e2]; rfl
  · rw [if_neg hc]
    exact ⟨rfl, fun k _ _ => rfl, fun a b _ _ => List.Perm.refl _, not_lt.1 hc,
      Or.inl ⟨rfl, rfl⟩⟩

theorem med3b_spec (v : Nat → ℚ) (t : List Nat) {pm hi : Nat}
    (hne : pm < hi) (hhi : hi < t.length) :
    (med3b v t pm hi).length = t.length ∧
    (∀ k, k ≠ pm → k ≠ hi → gl (med3b v t pm hi) k = gl t k) ∧
    (∀ a b, a ≤ pm → hi ≤ b → List.Perm (seg (med3b v t pm hi) a b) (seg t a b)) ∧
    vAt v (med3b v t pm hi) pm ≤ vAt v (med3b v t pm hi) hi ∧
    ((vAt v (med3b v t pm hi) pm = vAt v t pm ∧ vAt v (med3b v t pm hi) hi = vAt v t hi) ∨
     (vAt v (med3b v t pm hi) pm = vAt v t hi ∧ vAt v (med3b v t pm hi) hi = vAt v t pm)) := by
  have hpm : pm < t.length := by omega
  unfold med3b
  by_cases hc : vAt v t hi < vAt v t pm
  · rw [if_pos hc]
    have e1 : gl (swp t hi pm) pm = gl t hi := gl_swp_snd hpm
    have e2 : gl (swp t hi pm) hi = gl t pm := gl_swp_fst hhi hpm
    refine ⟨length_swp t hi pm, ?_, ?_, ?_, Or.inr ⟨?_, ?_⟩⟩
    · intro k hk1 hk2
      exact gl_swp_other hk2 hk1
    · intro a b ha hb
      refine List.Perm.trans
        (List.Perm.of_eq (seg_congr (fun k _ _ => gl_swp_comm hhi hpm k))) ?_
      exact seg_swp_perm ha (le_of_lt hne) hb hpm hhi
    · rw [vAt_def, vAt_def, e1, e2]
      exact le_of_lt hc
    · rw [vAt_def, e1]; rfl
    · rw [vAt_def, e2]; rfl
  · rw [if_neg hc]
    exact ⟨rfl, fun k _ _ => rfl, fun a b _ _ => List.Perm.refl _, not_lt.1 hc,
      Or.inl ⟨rfl, rfl⟩⟩

theorem med3_spec (v : Nat → ℚ) (t : List Nat) {lo pm hi : Nat}
    (h1 : lo < pm) (h2 : pm < hi) (hlen : hi < t.length) :
    (med3 v t lo pm hi).length = t.length ∧
    (∀ k, k ≠ lo → k ≠ pm → k ≠ hi → gl (med3 v t lo pm hi) k = gl t k) ∧
    List.Perm (seg (med3 v t lo pm hi) lo hi) (seg t lo hi) ∧
    vAt v (med3 v t lo pm hi) lo ≤ vAt v (med3 v t lo pm hi) pm ∧
    vAt v (med3 v t lo pm hi) pm ≤ vAt v (med3 v t lo pm hi) hi := by
  have hpmlen : pm < t.length := by omega
  obtain ⟨a1, a2, a3, a4, a5⟩ := med3a_spec v t h1 hpmlen
  obtain ⟨b1, b2, b3, b4, b5⟩ := med3b_spec v (med3a v t lo pm) h2 (by rw [a1]; exact hlen)
  obtain ⟨c1, c2, c3, c4, c5⟩ :=
    med3a_spec v (med3b v (med3a v t lo pm) pm hi) h1 (by rw [b1, a1]; omega)
  unfold med3
  have ehi : vAt v (med3a v (med3b v (med3a v t lo pm) pm hi) lo pm) hi =
      vAt v (med3b v (med3a v t lo pm) pm hi) hi := by
    rw [vAt_def, c2 hi (by omega) (by omega)]; rfl
  refine ⟨by rw [c1, b1, a1], ?_, ?_, c4, ?_⟩
  · intro k k1 k2 k3
    rw [c2 k k1 k2, b2 k k2 k3, a2 k k1 k2]
  · exact ((c3 lo hi (le_refl _) (by omega)).trans (b3 lo hi (by omega) (le_refl _))).trans
      (a3 lo hi (le_refl _) (by omega))
  · rcases c5 with ⟨e1, e2⟩ | ⟨e1, e2⟩
    · rw [e2, ehi]
      exact b4
    · rw [e2, ehi]
      have elo : vAt v (med3b v (med3a v t lo pm) pm hi) lo = vAt v (med3a v t lo pm) lo := by
        rw [vAt_def, b2 lo (by omega) (by omega)]; rfl
      rw [elo]
      rcases b5 with ⟨f1, f2⟩ | ⟨f1, f2⟩
      · rw [f2]
        have hmid : vAt v (med3a v t lo pm) pm ≤ vAt v (med3a v t lo pm) hi := by
          rw [← f1, ← f2]; exact b4
        exact le_trans a4 hmid
      · rw [f2]
        exact a4

theorem partitionSeg_spec (v : Nat → ℚ) {t : List Nat} {lo hi : Nat}
    (hsize : lo + 16 ≤ hi) (hlen : hi < t.length) :
    (partitionSeg v t lo hi).1.length = t.length ∧
    (∀ k, k < lo ∨ hi < k → gl (partitionSeg v t lo hi).1 k = gl t k) ∧
    List.Perm (seg (partitionSeg v t lo hi).1 lo hi) (seg t lo hi) ∧
    lo < (partitionSeg v t lo hi).2 ∧ (partitionSeg v t lo hi).2 ≤ hi - 1 ∧
    (∀ k, lo ≤ k → k < (partitionSeg v t lo hi).2 →
      vAt v (partitionSeg v t lo hi).1 k ≤
        vAt v (partitionSeg v t lo hi).1 (partitionSeg v t lo hi).2) ∧
    (∀ k, (partitionSeg v t lo hi).2 < k → k ≤ hi →
      vAt v (partitionSeg v t lo hi).1 (partitionSeg v t lo hi).2 ≤
        vAt v (partitionSeg v t lo hi).1 k) := by
  have hpm1 : lo < lo + (hi - lo) / 2 := by omega
  have hpm2 : lo + (hi - lo) / 2 < hi - 1 := by omega
  obtain ⟨m1, m2, m3, m4, m5⟩ := med3_spec v t hpm1 (by omega) hlen
  set pm := lo + (hi - lo) / 2 with hpmdef
  set t3 := med3 v t lo pm hi with ht3
  set vp := vAt v t3 pm with hvp
  set t4 := swp t3 pm (hi - 1) with ht4
  have hlen3 : t3.length = t.length := m1
  have hlen4 : t4.length = t.length := by rw [ht4, length_swp, hlen3]
  have hpmlen : pm < t3.length := by omega
  have hh1len : hi - 1 < t3.length := by omega
  have g1 : vAt v t4 (hi - 1) = vp := by
    rw [ht4, vAt_def, gl_swp_snd hh1len]; rfl
  have g2 : vAt v t4 lo = vAt v t3 lo := by
    rw [ht4, vAt_def, gl_swp_other (by omega) (by omega)]; rfl
  have g3 : vAt v t4 hi = vAt v t3 hi := by
    rw [ht4, vAt_def, gl_swp_other (by omega) (by omega)]; rfl
  obtain ⟨h1, h2, h3, h4, h5, h6, h7, h8⟩ :=
    hoareLoop_spec v vp lo hi (hi - lo) t4 lo (hi - 1) (le_refl _) (by omega) (le_refl _)
      (by omega) (by omega) (by omega)
      (fun k hk1 hk2 => by
        have : k = lo := by omega
        rw [this, g2]
        exact m4)
      (fun k hk1 hk2 => by
        have : k = hi - 1 := by omega
        rw [this, g1])
  set t5 := (hoareLoop v vp hi (hi - lo) t4 lo (hi - 1)).1 with ht5
  set p := (hoareLoop v vp hi (hi - lo) t4 lo (hi - 1)).2 with hp
  have hlen5 : t5.length = t.length := by rw [h1, hlen4]
  have hplen : p < t5.length := by omega
  have hh1len5 : hi - 1 < t5.length := by omega
  have e5h1 : vAt v t5 (hi - 1) = vp := by
    rw [vAt_def, h2 (hi - 1) (Or.inr (le_refl _))]
    exact g1
  have e5hi : vp ≤ vAt v t5 hi := by
    rw [vAt_def, h2 hi (Or.inr (by omega))]
    show vp ≤ vAt v t4 hi
    rw [g3]
    exact m5
  have hgoal : partitionSeg v t lo hi = (swp t5 p (hi - 1), p) := by
    rw [partitionSeg]
  rw [hgoal]
  have fpiv : vAt v (swp t5 p (hi - 1)) p = vp := by
    rw [vAt_def, gl_swp_fst hplen hh1len5]
    exact e5h1
  refine ⟨?_, ?_, ?_, h4, h5, ?_, ?_⟩
  · show (swp t5 p (hi - 1)).length = t.length
    rw [length_swp, hlen5]
  · intro k hk
    show gl (swp t5 p (hi - 1)) k = gl t k
    rw [gl_swp_other (by omega) (by omega), h2 k (by omega), ht4,
      gl_swp_other (by omega) (by omega), m2 k (by omega) (by omega) (by omega)]
  · show List.Perm (seg (swp t5 p (hi - 1)) lo hi) (seg t lo hi)
    refine ((seg_swp_perm (by omega) (by omega) (by omega) hplen hh1len5).trans h3).trans ?_
    refine List.Perm.trans ?_ m3
    exact seg_swp_perm (by omega) (by omega) (by omega) hpmlen hh1len
  · intro k hk1 hk2
    show vAt v (swp t5 p (hi - 1)) k ≤ vAt v (swp t5 p (hi - 1)) p
    rw [fpiv, vAt_def, gl_swp_other (by omega) (by omega)]
    exact h6 k hk1 hk2
  · intro k hk1 hk2
    show vAt v (swp t5 p (hi - 1)) p ≤ vAt v (swp t5 p (hi - 1)) k
    rw [fpiv]
    by_cases hkhi : k = hi
    · rw [hkhi, vAt_def, gl_swp_other (by omega) (by omega)]
      exact e5hi
    · by_cases hkh1 : k = hi - 1
      · rw [hkh1, vAt_def, gl_swp_snd hh1len5]
        exact h8
      · rw [vAt_def, gl_swp_other (by omega) (by omega)]
        exact h7 k hk1 (by omega)

theorem sortedSeg_congr {v : Nat → ℚ} {t t' : List Nat} {lo hi : Nat}
    (h : ∀ k, lo ≤ k → k ≤ hi → gl t' k = gl t k)
    (hs : SortedSeg v t lo hi) : SortedSeg v t' lo hi := by
  intro i j h1 h2 h3
  have hg := hs i j h1 h2 h3
  rw [vAt_def, vAt_def, h i h1 (by omega), h j (by omega) h3]
  exact hg

theorem seg_decomp_one {lo p hi : Nat} (h1 : lo < p) (h2 : p ≤ hi) (t : List Nat) :
    seg t lo hi = seg t lo (p - 1) ++ gl t p :: seg t (p + 1) hi := by
  unfold seg
  have hp : p - 1 + 1 = p := by omega
  rw [hp, ← List.Ico.append_consecutive (show lo ≤ p by omega) (show p ≤ hi + 1 by omega),
      List.Ico.eq_cons (show p < hi + 1 by omega)]
  simp

/-- Glue the two sorted halves and the pivot into a sorted whole. -/
theorem pivot_glue (v : Nat → ℚ) {tp tf : List Nat} {lo hi pp : Nat}
    (hlo : lo < pp) (hhi : pp ≤ hi - 1) (hsz : lo + 2 ≤ hi)
    (hpiv : gl tf pp = gl tp pp)
    (hLperm : List.Perm (seg tf lo (pp - 1)) (seg tp lo (pp - 1)))
    (hLsort : SortedSeg v tf lo (pp - 1))
    (hRperm : List.Perm (seg tf (pp + 1) hi) (seg tp (pp + 1) hi))
    (hRsort : SortedSeg v tf (pp + 1) hi)
    (hp6 : ∀ k, lo ≤ k → k < pp → vAt v tp k ≤ vAt v tp pp)
    (hp7 : ∀ k, pp < k → k ≤ hi → vAt v tp pp ≤ vAt v tp k) :
    List.Perm (seg tf lo hi) (seg tp lo hi) ∧ SortedSeg v tf lo hi := by
  have hL : ∀ k, lo ≤ k → k ≤ pp - 1 → vAt v tf k ≤ vAt v tp pp :=
    val_le_of_seg_perm hLperm (fun k hk1 hk2 => hp6 k hk1 (by omega))
  have hR : ∀ k, pp + 1 ≤ k → k ≤ hi → vAt v tp pp ≤ vAt v tf k :=
    val_ge_of_seg_perm hRperm (fun k hk1 hk2 => hp7 k (by omega) hk2)
  have hpivv : vAt v tf pp = vAt v tp pp := by
    rw [vAt_def, hpiv]; rfl
  constructor
  · rw [seg_decomp_one hlo (by omega) tf, seg_decomp_one hlo (by omega) tp, hpiv]
    exact List.Perm.append hLperm (List.Perm.cons _ hRperm)
  · intro i j h1 h2 h3
    by_cases hip : i < pp
    · by_cases hjp : j < pp
      · exact hLsort i j h1 h2 (by omega)
      · rcases Nat.eq_or_lt_of_le (show pp ≤ j by omega) with e | hj
        · rw [← e, hpivv]
          exact hL i h1 (by omega)
        · exact le_trans (le_trans (hL i h1 (by omega)) (hR j (by omega) h3))
            (le_refl _)
    · rcases Nat.eq_or_lt_of_le (show pp ≤ i by omega) with e | hi'
      · rcases Nat.eq_or_lt_of_le h2 with ej | hj
        · rw [ej]
        · rw [← e, hpivv]
          exact hR j (by omega) h3
      · exact hRsort i j (by omega) h2 h3

theorem sortSeg_spec (v : Nat → ℚ) :
    ∀ fuel t (lo hi : Nat) (b : Int), lo ≤ hi → hi < t.length → hi + 1 - lo ≤ 20 →
      ((hi + 1 - lo : Nat) : Int) ≤ b + 16 → hi + 1 - lo ≤ fuel →
      (sortSeg v fuel t lo hi b).1.length = t.length ∧
      (∀ k, k < lo ∨ hi < k → gl (sortSeg v fuel t lo hi b).1 k = gl t k) ∧
      List.Perm (seg (sortSeg v fuel t lo hi b).1 lo hi) (seg t lo hi) ∧
      SortedSeg v (sortSeg v fuel t lo hi b).1 lo hi ∧
      (sortSeg v fuel t lo hi b).2 ≤ b ∧
      b - max 0 (((hi + 1 - lo : Nat) : Int) - 16) ≤ (sortSeg v fuel t lo hi b).2 := by
  intro fuel
  induction fuel with
  | zero =>
    intro t lo hi b h1 h2 h3 h4 h5
    omega
  | succ fuel ih =>
    intro t lo hi b h1 h2 h3 h4 h5
    by_cases hc : 15 < hi - lo
    · have hb0 : ¬ (b < 0) := by omega
      have hstep : sortSeg v (fuel + 1) t lo hi b =
          (if (partitionSeg v t lo hi).2 - lo < hi - (partitionSeg v t lo hi).2 then
            sortSeg v fuel
              (sortSeg v fuel (partitionSeg v t lo hi).1 lo
                ((partitionSeg v t lo hi).2 - 1) (b - 1)).1
              ((partitionSeg v t lo hi).2 + 1) hi
              (sortSeg v fuel (partitionSeg v t lo hi).1 lo
                ((partitionSeg v t lo hi).2 - 1) (b - 1)).2
          else
            sortSeg v fuel
              (sortSeg v fuel (partitionSeg v t lo hi).1
                ((partitionSeg v t lo hi).2 + 1) hi (b - 1)).1
              lo ((partitionSeg v t lo hi).2 - 1)
              (sortSeg v fuel (partitionSeg v t lo hi).1
                ((partitionSeg v t lo hi).2 + 1) hi (b - 1)).2) := by
        rw [sortSeg, if_pos hc, if_neg hb0]
      obtain ⟨p1, p2, p3, p4, p5, p6, p7⟩ :=
        partitionSeg_spec v (show lo + 16 ≤ hi by omega) h2
      set tp := (partitionSeg v t lo hi).1 with htp
      set pp := (partitionSeg v t lo hi).2 with hpp
      rw [hstep]
      by_cases hside : pp - lo < hi - pp
      · rw [if_pos hside]
        obtain ⟨l1, l2, l3, l4, l5, l6⟩ := ih tp lo (pp - 1) (b - 1) (by omega)
          (by rw [p1]; omega) (by omega) (by omega) (by omega)
        set c1 := sortSeg v fuel tp lo (pp - 1) (b - 1) with hc1
        obtain ⟨r1, r2, r3, r4, r5, r6⟩ := ih c1.1 (pp + 1) hi c1.2 (by omega)
          (by rw [l1, p1]; exact h2) (by omega) (by omega) (by omega)
        set c2 := sortSeg v fuel c1.1 (pp + 1) hi c1.2 with hc2
        have hpiv : gl c2.1 pp = gl tp pp := by
          rw [r2 pp (by omega), l2 pp (by omega)]
        have hLperm : List.Perm (seg c2.1 lo (pp - 1)) (seg tp lo (pp - 1)) := by
          have hEq : seg c2.1 lo (pp - 1) = seg c1.1 lo (pp - 1) :=
            seg_congr (fun k _ hk2 => r2 k (by omega))
          rw [hEq]
          exact l3
        have hLsort : SortedSeg v c2.1 lo (pp - 1) :=
          sortedSeg_congr (fun k _ hk2 => r2 k (by omega)) l4
        have hRperm : List.Perm (seg c2.1 (pp + 1) hi) (seg tp (pp + 1) hi) :=
          r3.trans (List.Perm.of_eq (seg_congr (fun k hk1 _ => l2 k (by omega))))
        obtain ⟨hperm, hsort⟩ :=
          pivot_glue v p4 p5 (by omega) hpiv hLperm hLsort hRperm r4 p6 p7
        refine ⟨by rw [r1, l1, p1], ?_, hperm.trans p3, hsort, by omega, by omega⟩
        intro k hk
        rw [r2 k (by omega), l2 k (by omega), p2 k hk]
      · rw [if_neg hside]
        obtain ⟨o1, o2, o3, o4, o5, o6⟩ := ih tp (pp + 1) hi (b - 1) (by omega)
          (by rw [p1]; exact h2) (by omega) (by omega) (by omega)
        set c1 := sortSeg v fuel tp (pp + 1) hi (b - 1) with hc1
        obtain ⟨q1, q2, q3, q4, q5, q6⟩ := ih c1.1 lo (pp - 1) c1.2 (by omega)
          (by rw [o1, p1]; omega) (by omega) (by omega) (by omega)
        set c2 := sortSeg v fuel c1.1 lo (pp - 1) c1.2 with hc2
        have hpiv : gl c2.1 pp = gl tp pp := by
          rw [q2 pp (by omega), o2 pp (by omega)]
        have hLperm : List.Perm (seg c2.1 lo (pp - 1)) (seg tp lo (pp - 1)) :=
          q3.trans (List.Perm.of_eq (seg_congr (fun k _ hk2 => o2 k (by omega))))
        have hRperm : List.Perm (seg c2.1 (pp + 1) hi) (seg tp (pp + 1) hi) := by
          have hEq : seg c2.1 (pp + 1) hi = seg c1.1 (pp + 1) hi :=
            seg_congr (fun k hk1 _ => q2 k (by omega))
          rw [hEq]
          exact o3
        have hRsort : SortedSeg v c2.1 (pp + 1) hi :=
          sortedSeg_congr (fun k hk1 _ => q2 k (by omega)) o4
        obtain ⟨hperm, hsort⟩ :=
          pivot_glue v p4 p5 (by omega) hpiv hLperm q4 hRperm hRsort p6 p7
        refine ⟨by rw [q1, o1, p1], ?_, hperm.trans p3, hsort, by omega, by omega⟩
        intro k hk
        rw [q2 k (by omega), o2 k (by omega), p2 k hk]
    · have hins : sortSeg v (fuel + 1) t lo hi b = (insSortSeg v t lo hi, b) := by
        rw [sortSeg, if_neg hc]
      rw [hins]
      obtain ⟨i1, i2, i3, i4⟩ := insSortSeg_spec v h1 h2
      exact ⟨i1, i2, i3, i4, le_refl b, by omega⟩

theorem self_map_getD (l : List Nat) :
    (List.range l.length).map (fun k => l.getD k 0) = l := by
  refine List.ext_getElem (by simp) ?_
  intro i h1 h2
  rw [List.getElem_map, List.getElem_range]
  exact List.getD_eq_getElem _ _ h2

theorem seg_zero_self (t : List Nat) (n : Nat) (h : t.length = n) (hn : 0 < n) :
    seg t 0 (n - 1) = t := by
  unfold seg
  have e1 : n - 1 + 1 = n := by omega
  rw [e1, List.Ico.zero_bot, ← h]
  exact self_map_getD t

/-- `numpy.argsort(kind='quicksort')` on 20 keys: the result is a permutation
of `0..19` along which the keys are nondecreasing.  (20 keys is the only size
`get_predictions` ever sorts; the introsort's heapsort fallback is
unreachable at this size, per `sortSeg_spec`.) -/
theorem argsortQuick_spec (s : List ℚ) (h : s.length = 20) :
    (argsortQuick s).length = 20 ∧
    List.Perm (argsortQuick s) (List.range 20) ∧
    List.Pairwise (· ≤ ·) ((argsortQuick s).map (fun i => s.getD i 0)) := by
  have hlog : Nat.log2 20 = 4 := by
    rw [Nat.log2, if_pos (by norm_num), Nat.log2, if_pos (by norm_num),
      Nat.log2, if_pos (by norm_num), Nat.log2, if_pos (by norm_num),
      Nat.log2, if_neg (by norm_num)]
  have hunf : argsortQuick s =
      (sortSeg (fun i => s.getD i 0) 20 (List.range 20) 0 19 8).1 := by
    rw [argsortQuick, h, hlog]
    norm_num
  obtain ⟨s1, s2, s3, s4, _, _⟩ := sortSeg_spec (fun i => s.getD i 0) 20 (List.range 20)
    0 19 8 (by omega) (by simp) (by omega) (by omega) (by omega)
  rw [hunf]
  set r := (sortSeg (fun i => s.getD i 0) 20 (List.range 20) 0 19 8).1 with hr
  have hlen : r.length = 20 := by rw [s1]; simp
  have hsegr : seg r 0 19 = r := seg_zero_self r 20 hlen (by omega)
  have hsegt : seg (List.range 20) 0 19 = List.range 20 :=
    seg_zero_self (List.range 20) 20 (by simp) (by omega)
  have hperm : List.Perm r (List.range 20) := by
    rw [← hsegr, ← hsegt]
    exact s3
  refine ⟨hlen, hperm, ?_⟩
  rw [List.pairwise_iff_getElem]
  intro i j h1 h2 hij
  rw [List.length_map, hlen] at h1 h2
  have hs := s4 i j (by omega) (by omega) (by omega)
  rw [vAt_def, vAt_def] at hs
  simp only [List.getElem_map]
  have hil : i < r.length := by omega
  have hjl : j < r.length := by omega
  have egi : r[i] = gl r i := by
    simp [gl, List.getD_eq_getElem, hlen, h1]
  have egj : r[j] = gl r j := by
    simp [gl, List.getD_eq_getElem, hlen, h2]
  rw [egi, egj]
  exact hs

/-!
### Correctness lemmas for the Feature Aligner model
-/

/-- Cell of a DataFrame at row `i`, column `c` (NaN out of range). -/
def cellAt (d : DataFrame) (i : Nat) (c : String) : Cell :=
  (d.rows.getD i (fun _ => Cell.nan)) c

theorem string_ext {a b : String} (h : a.data = b.data) : a = b := by
  cases a; cases b; simp only at h; rw [h]

theorem head?_append_left {l l' : List Char} (h : l ≠ []) : (l ++ l').head? = l.head? := by
  cases l with
  | nil => exact absurd rfl h
  | cons a t => rfl

/-- Two strings with different first characters stay different after appending
to the first. -/
theorem append_ne_of_head {p c : String} (s : String)
    (hne : p.data.head? ≠ c.data.head?) (hp : p.data ≠ []) : p ++ s ≠ c := by
  intro he
  apply hne
  have hd : p.data ++ s.data = c.data := by
    rw [← String.data_append]
    exact congrArg String.data he
  rw [← hd, head?_append_left hp]

theorem encPairs_field {vA vT vE : List String} {p : String × String}
    (hp : p ∈ encPairs vA vT vE) :
    (p.1 = "Abbreviation" ∧ p.2 ∈ vA) ∨ (p.1 = "TeamName" ∧ p.2 ∈ vT) ∨
      (p.1 = "EventName" ∧ p.2 ∈ vE) := by
  simp only [encPairs, List.mem_append, List.mem_map] at hp
  rcases hp with (⟨x, hx, rfl⟩ | ⟨x, hx, rfl⟩) | ⟨x, hx, rfl⟩
  · exact Or.inl ⟨rfl, hx⟩
  · exact Or.inr (Or.inl ⟨rfl, hx⟩)
  · exact Or.inr (Or.inr ⟨rfl, hx⟩)

theorem encPairs_mem {vA vT vE : List String} {f cat : String}
    (hf : (f = "Abbreviation" ∧ cat ∈ vA) ∨ (f = "TeamName" ∧ cat ∈ vT) ∨
      (f = "EventName" ∧ cat ∈ vE)) : (f, cat) ∈ encPairs vA vT vE := by
  simp only [encPairs, List.mem_append, List.mem_map]
  rcases hf with ⟨rfl, hx⟩ | ⟨rfl, hx⟩ | ⟨rfl, hx⟩
  · exact Or.inl (Or.inl ⟨cat, hx, rfl⟩)
  · exact Or.inl (Or.inr ⟨cat, hx, rfl⟩)
  · exact Or.inr ⟨cat, hx, rfl⟩

theorem find?_encPairs_numeric (vA vT vE : List String) {c : String}
    (hc : c ∈ numerical_features_input) :
    (encPairs vA vT vE).find? (fun p => encName p == c) = none := by
  rw [List.find?_eq_none]
  intro p hp hbeq
  have he : encName p = c := by simpa using hbeq
  have hfield := encPairs_field hp
  simp only [numerical_features_input, List.mem_cons, List.not_mem_nil, or_false] at hc
  unfold encName at he
  rcases hfield with ⟨h1, _⟩ | ⟨h1, _⟩ | ⟨h1, _⟩ <;> rw [h1] at he <;>
    rcases hc with rfl | rfl | rfl | rfl | rfl | rfl | rfl <;>
    exact absurd he (append_ne_of_head _ (by decide) (by decide))

theorem append_ne_append_of_head {p q : String} (s u : String)
    (hne : p.data.head? ≠ q.data.head?) (hp : p.data ≠ []) (hq : q.data ≠ []) :
    p ++ s ≠ q ++ u := by
  intro he
  apply hne
  have hd : p.data ++ s.data = q.data ++ u.data := by
    rw [← String.data_append, ← String.data_append]
    exact congrArg String.data he
  have h1 : (p.data ++ s.data).head? = p.data.head? := head?_append_left hp
  have h2 : (q.data ++ u.data).head? = q.data.head? := head?_append_left hq
  rw [← h1, hd, h2]

theorem find?_encPairs_enc (vA vT vE : List String) {f cat : String}
    (hf : (f = "Abbreviation" ∧ cat ∈ vA) ∨ (f = "TeamName" ∧ cat ∈ vT) ∨
      (f = "EventName" ∧ cat ∈ vE)) :
    (encPairs vA vT vE).find? (fun p => encName p == (f ++ "_" ++ cat)) = some (f, cat) := by
  have huniq : ∀ p ∈ encPairs vA vT vE, encName p = f ++ "_" ++ cat → p = (f, cat) := by
    intro p hp he
    have hfield := encPairs_field hp
    unfold encName at he
    have hff : (f = "Abbreviation") ∨ (f = "TeamName") ∨ (f = "EventName") := by
      rcases hf with ⟨h, _⟩ | ⟨h, _⟩ | ⟨h, _⟩
      · exact Or.inl h
      · exact Or.inr (Or.inl h)
      · exact Or.inr (Or.inr h)
    have hsame : p.1 = f := by
      rcases hfield with ⟨h1, _⟩ | ⟨h1, _⟩ | ⟨h1, _⟩ <;> rw [h1] at he ⊢ <;>
        rcases hff with rfl | rfl | rfl <;>
        first
          | rfl
          | exact absurd he (append_ne_append_of_head _ _ (by decide) (by decide) (by decide))
    rw [hsame] at he
    have hcat : p.2 = cat := by
      have hd : (f ++ "_").data ++ p.2.data = (f ++ "_").data ++ cat.data := by
        have := congrArg String.data he
        rw [String.data_append, String.data_append] at this
        exact this
      exact string_ext (List.append_cancel_left hd)
    have hp2 : p = (p.1, p.2) := rfl
    rw [hp2, hsame, hcat]
  have hmem : (f, cat) ∈ encPairs vA vT vE := encPairs_mem hf
  have hpred : (fun p => encName p == (f ++ "_" ++ cat)) (f, cat) = true := by
    simp [encName]
  rcases hfind : (encPairs vA vT vE).find? (fun p => encName p == (f ++ "_" ++ cat)) with _ | q
  · exfalso
    rw [List.find?_eq_none] at hfind
    exact hfind (f, cat) hmem hpred
  · have h1 := List.find?_some hfind
    have h2 := List.mem_of_find?_eq_some hfind
    rw [huniq q h2 (by simpa using h1)]

theorem synthRow_of_mem {data : DataFrame} {r : String → Cell} {c : String}
    (h : c ∈ data.cols) : synthRow data r c = r c := by
  unfold synthRow
  rw [if_neg (fun hand => hand.2 h)]

theorem synthRow_of_not_cat {data : DataFrame} {r : String → Cell} {c : String}
    (h : c ∉ categorical_features_input) : synthRow data r c = r c := by
  unfold synthRow
  rw [if_neg (fun hand => h hand.1)]

theorem synthRow_of_absent {data : DataFrame} {r : String → Cell} {c : String}
    (h1 : c ∈ categorical_features_input) (h2 : c ∉ data.cols) :
    synthRow data r c = Cell.str "Unknown" := by
  unfold synthRow
  rw [if_pos ⟨h1, h2⟩]

theorem imputedRow_of_not_impute {data : DataFrame} {r : String → Cell} {c : String}
    (h : c ∉ numerical_cols_to_impute_with_zero) : imputedRow data r c = r c := by
  unfold imputedRow
  rw [if_neg (fun hand => h hand.1)]

theorem imputedRow_nan {data : DataFrame} {r : String → Cell} {c : String}
    (hcol : c ∈ data.cols) (himp : c ∈ numerical_cols_to_impute_with_zero)
    (hr : r ∈ data.rows) (hnan : r c = Cell.nan) : imputedRow data r c = Cell.num 0 := by
  unfold imputedRow
  rw [if_pos ⟨himp, hcol, List.any_eq_true.2 ⟨r, hr, by simp [hnan]⟩, hnan⟩]

theorem imputedRow_not_nan {data : DataFrame} {r : String → Cell} {c : String}
    (hnan : r c ≠ Cell.nan) : imputedRow data r c = r c := by
  unfold imputedRow
  by_cases hcond : c ∈ numerical_cols_to_impute_with_zero ∧ c ∈ data.cols ∧
      data.rows.any (fun r' => decide (r' c = Cell.nan)) ∧ r c = Cell.nan
  · exact absurd hcond.2.2.2 hnan
  · rw [if_neg hcond]

theorem numPresent_mem {data : DataFrame} {c : String} :
    c ∈ numPresent data ↔ c ∈ numerical_features_input ∧ c ∈ data.cols := by
  unfold numPresent
  rw [List.mem_filter]
  simp

theorem alignedCell_numeric_present (vA vT vE : List String) (data : DataFrame)
    (r : String → Cell) {c : String} (hc : c ∈ numerical_features_input)
    (hin : c ∈ data.cols) : alignedCell vA vT vE data r c = r c := by
  unfold alignedCell
  rw [if_pos (numPresent_mem.2 ⟨hc, hin⟩)]

theorem alignedCell_numeric_absent (vA vT vE : List String) (data : DataFrame)
    (r : String → Cell) {c : String} (hc : c ∈ numerical_features_input)
    (hnotin : c ∉ data.cols) : alignedCell vA vT vE data r c = Cell.num 0 := by
  unfold alignedCell
  rw [if_neg (fun hmem => hnotin (numPresent_mem.1 hmem).2),
    find?_encPairs_numeric vA vT vE hc]

theorem enc_col_not_numeric {f cat : String}
    (hff : f = "Abbreviation" ∨ f = "TeamName" ∨ f = "EventName") :
    (f ++ "_" ++ cat) ∉ numerical_features_input := by
  intro hmem
  simp only [numerical_features_input, List.mem_cons, List.not_mem_nil, or_false] at hmem
  rcases hff with rfl | rfl | rfl <;>
    rcases hmem with he | he | he | he | he | he | he <;>
    exact absurd he (append_ne_of_head _ (by decide) (by decide))

theorem alignedCell_enc (vA vT vE : List String) (data : DataFrame) (r : String → Cell)
    {f cat : String}
    (hf : (f = "Abbreviation" ∧ cat ∈ vA) ∨ (f = "TeamName" ∧ cat ∈ vT) ∨
      (f = "EventName" ∧ cat ∈ vE)) :
    alignedCell vA vT vE data r (f ++ "_" ++ cat) =
      Cell.num (if r f = Cell.str cat then 1 else 0) := by
  have hff : f = "Abbreviation" ∨ f = "TeamName" ∨ f = "EventName" := by
    rcases hf with ⟨h, _⟩ | ⟨h, _⟩ | ⟨h, _⟩
    · exact Or.inl h
    · exact Or.inr (Or.inl h)
    · exact Or.inr (Or.inr h)
  have hnp : (f ++ "_" ++ cat) ∉ numPresent data :=
    fun hmem => enc_col_not_numeric hff (numPresent_mem.1 hmem).1
  unfold alignedCell
  rw [if_neg hnp, find?_encPairs_enc vA vT vE hf]

theorem preprocessDF_cols (vA vT vE : List String) (data : DataFrame) :
    (preprocessDF vA vT vE data).cols = TRAINING_FEATURE_NAMES := by
  unfold preprocessDF
  by_cases h : data.rows.isEmpty ∨ data.cols.isEmpty
  · rw [if_pos h]
  · rw [if_neg h]

theorem preprocessDF_empty_rows (vA vT vE : List String) (data : DataFrame)
    (h : data.rows = []) : (preprocessDF vA vT vE data).rows = [] := by
  unfold preprocessDF
  rw [if_pos (Or.inl (List.isEmpty_iff.2 h))]

theorem preprocessDF_rows_nonempty (vA vT vE : List String) (data : DataFrame)
    (hr : data.rows ≠ []) (hc : data.cols ≠ []) :
    (preprocessDF vA vT vE data).rows =
      data.rows.map (fun r => alignedCell vA vT vE data (synthRow data (imputedRow data r))) := by
  unfold preprocessDF
  rw [if_neg (by simp [List.isEmpty_iff, hr, hc])]

theorem preprocessDF_length (vA vT vE : List String) (data : DataFrame)
    (hr : data.rows ≠ []) (hc : data.cols ≠ []) :
    (preprocessDF vA vT vE data).rows.length = data.rows.length := by
  rw [preprocessDF_rows_nonempty vA vT vE data hr hc, List.length_map]

theorem preprocessDF_cellAt (vA vT vE : List String) (data : DataFrame)
    (hr : data.rows ≠ []) (hc : data.cols ≠ [])
    {i : Nat} (hi : i < data.rows.length) (c : String) :
    cellAt (preprocessDF vA vT vE data) i c =
      alignedCell vA vT vE data
        (synthRow data (imputedRow data (data.rows.getD i (fun _ => Cell.nan)))) c := by
  unfold cellAt
  rw [preprocessDF_rows_nonempty vA vT vE data hr hc]
  have h1 : i < (data.rows.map
      (fun r => alignedCell vA vT vE data (synthRow data (imputedRow data r)))).length := by
    simpa using hi
  rw [List.getD_eq_getElem _ _ h1, List.getElem_map, ← List.getD_eq_getElem _ _ hi]

/-!
### Claim theorems for the Feature Aligner
-/

/-- C1: for every input accepted by `preprocess_input` (i.e. every DataFrame),
the returned table's column list equals the frozen training schema
`TRAINING_FEATURE_NAMES` exactly and in order, regardless of the categories or
columns in the input; for an empty input the result has zero rows but the full
schema's columns. -/
theorem preprocess_schema_alignment (vA vT vE : List String) (data : DataFrame) :
    preprocess_input vA vT vE (PyObj.df data) = Except.ok (preprocessDF vA vT vE data) ∧
    (preprocessDF vA vT vE data).cols = TRAINING_FEATURE_NAMES ∧
    (data.rows = [] → (preprocessDF vA vT vE data).rows = []) :=
  ⟨rfl, preprocessDF_cols vA vT vE data, preprocessDF_empty_rows vA vT vE data⟩

theorem preprocess_schema_alignment_witness :
    preprocess_input ["VER"] ["Ferrari"] ["Monaco Grand Prix"]
        (PyObj.df ⟨["Q1_s"], []⟩) =
      Except.ok (preprocessDF ["VER"] ["Ferrari"] ["Monaco Grand Prix"] ⟨["Q1_s"], []⟩) ∧
    (preprocessDF ["VER"] ["Ferrari"] ["Monaco Grand Prix"] ⟨["Q1_s"], []⟩).cols =
      TRAINING_FEATURE_NAMES ∧
    ((⟨["Q1_s"], []⟩ : DataFrame).rows = [] →
      (preprocessDF ["VER"] ["Ferrari"] ["Monaco Grand Prix"] ⟨["Q1_s"], []⟩).rows = []) :=
  preprocess_schema_alignment ["VER"] ["Ferrari"] ["Monaco Grand Prix"] ⟨["Q1_s"], []⟩

/-- C4: a NaN in any of the five imputed numeric fields comes out as `0.0`;
a numeric column absent from the input comes out filled with `0`; and rows
with missing values are neither dropped nor an error (the row count is
preserved). -/
theorem preprocess_missing_value_imputation (vA vT vE : List String) (data : DataFrame)
    (i : Nat) (c : String) (hi : i < data.rows.length) (hcols : data.cols ≠ [])
    (hc : c ∈ numerical_cols_to_impute_with_zero) :
    (preprocessDF vA vT vE data).rows.length = data.rows.length ∧
    (c ∉ data.cols → cellAt (preprocessDF vA vT vE data) i c = Cell.num 0) ∧
    (c ∈ data.cols → (data.rows.getD i (fun _ => Cell.nan)) c = Cell.nan →
      cellAt (preprocessDF vA vT vE data) i c = Cell.num 0) := by
  have hrne : data.rows ≠ [] := by
    intro h
    rw [h] at hi
    simp at hi
  have hcnum : c ∈ numerical_features_input := by
    simp only [numerical_cols_to_impute_with_zero, List.mem_cons, List.not_mem_nil,
      or_false] at hc
    rcases hc with rfl | rfl | rfl | rfl | rfl <;> simp [numerical_features_input]
  have hcnotcat : c ∉ categorical_features_input := by
    simp only [numerical_cols_to_impute_with_zero, List.mem_cons, List.not_mem_nil,
      or_false] at hc
    rcases hc with rfl | rfl | rfl | rfl | rfl <;> decide
  refine ⟨preprocessDF_length vA vT vE data hrne hcols, ?_, ?_⟩
  · intro habs
    rw [preprocessDF_cellAt vA vT vE data hrne hcols hi c]
    exact alignedCell_numeric_absent vA vT vE data _ hcnum habs
  · intro hpres hnan
    rw [preprocessDF_cellAt vA vT vE data hrne hcols hi c,
      alignedCell_numeric_present vA vT vE data _ hcnum hpres,
      synthRow_of_not_cat hcnotcat]
    refine imputedRow_nan hpres hc ?_ hnan
    rw [List.getD_eq_getElem _ _ hi]
    exact List.getElem_mem hi

/-- Concrete input for the C4 witness: one row whose `Q2_s` is NaN, and no
`GridPosition` column at all. -/
def dfC4 : DataFrame :=
  ⟨["Season", "Q2_s"], [fun c => if c = "Season" then Cell.num 2024 else Cell.nan]⟩

theorem preprocess_missing_value_imputation_witness :
    (0 < dfC4.rows.length ∧ dfC4.cols ≠ [] ∧
      "Q2_s" ∈ numerical_cols_to_impute_with_zero) ∧
    ((preprocessDF [] [] [] dfC4).rows.length = dfC4.rows.length ∧
      ("Q2_s" ∉ dfC4.cols → cellAt (preprocessDF [] [] [] dfC4) 0 "Q2_s" = Cell.num 0) ∧
      ("Q2_s" ∈ dfC4.cols → (dfC4.rows.getD 0 (fun _ => Cell.nan)) "Q2_s" = Cell.nan →
        cellAt (preprocessDF [] [] [] dfC4) 0 "Q2_s" = Cell.num 0)) :=
  ⟨⟨by decide, by decide, by decide⟩,
    preprocess_missing_value_imputation [] [] [] dfC4 0 "Q2_s" (by decide) (by decide)
      (by decide)⟩

/-- C5: a categorical value found in the input but absent from the fitted
encoder vocabulary is encoded as `0` in every one-hot column of that field,
and no error is raised. -/
theorem preprocess_unknown_category_zero (vA vT vE : List String) (data : DataFrame)
    (i : Nat) (f cat s : String) (hi : i < data.rows.length) (hcols : data.cols ≠ [])
    (hf : (f = "Abbreviation" ∧ cat ∈ vA) ∨ (f = "TeamName" ∧ cat ∈ vT) ∨
      (f = "EventName" ∧ cat ∈ vE))
    (hfin : f ∈ data.cols)
    (hvalraw : (data.rows.getD i (fun _ => Cell.nan)) f = Cell.str s)
    (hnotin : (f = "Abbreviation" → s ∉ vA) ∧ (f = "TeamName" → s ∉ vT) ∧
      (f = "EventName" → s ∉ vE)) :
    preprocess_input vA vT vE (PyObj.df data) = Except.ok (preprocessDF vA vT vE data) ∧
    cellAt (preprocessDF vA vT vE data) i (f ++ "_" ++ cat) = Cell.num 0 := by
  have hrne : data.rows ≠ [] := by
    intro h
    rw [h] at hi
    simp at hi
  have hfne : f ∉ numerical_cols_to_impute_with_zero := by
    rcases hf with ⟨rfl, _⟩ | ⟨rfl, _⟩ | ⟨rfl, _⟩ <;> decide
  have r2f : synthRow data (imputedRow data (data.rows.getD i (fun _ => Cell.nan))) f =
      Cell.str s := by
    rw [synthRow_of_mem hfin, imputedRow_of_not_impute hfne, hvalraw]
  refine ⟨rfl, ?_⟩
  rw [preprocessDF_cellAt vA vT vE data hrne hcols hi, alignedCell_enc vA vT vE data _ hf,
    r2f]
  have hne : ¬ (Cell.str s = Cell.str cat) := by
    intro he
    have hsc : s = cat := by injection he
    rcases hf with ⟨hfe, hcat⟩ | ⟨hfe, hcat⟩ | ⟨hfe, hcat⟩
    · exact hnotin.1 hfe (hsc ▸ hcat)
    · exact hnotin.2.1 hfe (hsc ▸ hcat)
    · exact hnotin.2.2 hfe (hsc ▸ hcat)
  rw [if_neg hne]

/-- Concrete input for the C5 witness: an `Abbreviation` value `"XXX"` that is
not in the fitted vocabulary `["VER"]`. -/
def dfC5 : DataFrame :=
  ⟨["Abbreviation"], [fun c => if c = "Abbreviation" then Cell.str "XXX" else Cell.nan]⟩

theorem preprocess_unknown_category_zero_witness :
    (0 < dfC5.rows.length ∧ dfC5.cols ≠ [] ∧
      (("Abbreviation" : String) = "Abbreviation" ∧ "VER" ∈ ["VER"]) ∧
      "Abbreviation" ∈ dfC5.cols ∧
      (dfC5.rows.getD 0 (fun _ => Cell.nan)) "Abbreviation" = Cell.str "XXX" ∧
      (("Abbreviation" : String) = "Abbreviation" → "XXX" ∉ ["VER"])) ∧
    (preprocess_input ["VER"] [] [] (PyObj.df dfC5) =
      Except.ok (preprocessDF ["VER"] [] [] dfC5) ∧
    cellAt (preprocessDF ["VER"] [] [] dfC5) 0 ("Abbreviation" ++ "_" ++ "VER") =
      Cell.num 0) :=
  ⟨⟨by decide, by decide, ⟨rfl, by decide⟩, by decide, by decide, by decide⟩,
    preprocess_unknown_category_zero ["VER"] [] [] dfC5 0 "Abbreviation" "VER" "XXX"
      (by decide) (by decide) (Or.inl ⟨rfl, by decide⟩) (by decide) (by decide)
      ⟨by decide, by decide, by decide⟩⟩

/-- C6: when one of the categorical columns is entirely absent from a
non-empty input, the call does not raise — the column is synthesized with the
placeholder value `'Unknown'` before encoding, and the result is fully
schema-aligned with all rows kept. -/
theorem preprocess_missing_categorical_column (vA vT vE : List String) (data : DataFrame)
    (f : String) (hf : f ∈ categorical_features_input)
    (hrne : data.rows ≠ []) (hcols : data.cols ≠ []) (habs : f ∉ data.cols) :
    preprocess_input vA vT vE (PyObj.df data) = Except.ok (preprocessDF vA vT vE data) ∧
    (preprocessDF vA vT vE data).cols = TRAINING_FEATURE_NAMES ∧
    (preprocessDF vA vT vE data).rows.length = data.rows.length ∧
    (∀ i, i < data.rows.length →
      synthRow data (imputedRow data (data.rows.getD i (fun _ => Cell.nan))) f =
        Cell.str "Unknown") :=
  ⟨rfl, preprocessDF_cols vA vT vE data, preprocessDF_length vA vT vE data hrne hcols,
    fun _ _ => synthRow_of_absent hf habs⟩

/-- Concrete input for the C6 witness: one row, no `TeamName` column. -/
def dfC6 : DataFrame :=
  ⟨["Season"], [fun _ => Cell.num 2024]⟩

theorem preprocess_missing_categorical_column_witness :
    (("TeamName" : String) ∈ categorical_features_input ∧ dfC6.rows ≠ [] ∧
      dfC6.cols ≠ [] ∧ "TeamName" ∉ dfC6.cols) ∧
    (preprocess_input [] [] [] (PyObj.df dfC6) = Except.ok (preprocessDF [] [] [] dfC6) ∧
    (preprocessDF [] [] [] dfC6).cols = TRAINING_FEATURE_NAMES ∧
    (preprocessDF [] [] [] dfC6).rows.length = dfC6.rows.length ∧
    (∀ i, i < dfC6.rows.length →
      synthRow dfC6 (imputedRow dfC6 (dfC6.rows.getD i (fun _ => Cell.nan))) "TeamName" =
        Cell.str "Unknown")) :=
  ⟨⟨by decide, by exact List.cons_ne_nil _ _, by decide, by decide⟩,
    preprocess_missing_categorical_column [] [] [] dfC6 "TeamName" (by decide)
      (by exact List.cons_ne_nil _ _) (by decide) (by decide)⟩

/-- C9: `preprocess_input` raises a type error if and only if its argument is
not a pandas DataFrame; every DataFrame argument passes the check and returns
without a type error. -/
theorem preprocess_type_guard (vA vT vE : List String) :
    (∀ d : DataFrame, preprocess_input vA vT vE (PyObj.df d) =
      Except.ok (preprocessDF vA vT vE d)) ∧
    preprocess_input vA vT vE PyObj.other = Except.error PyErr.typeErr :=
  ⟨fun _ => rfl, rfl⟩

/-!
### Claim theorem for the Model Artifact Loader
-/

/-- C7: `load_model` never raises — it returns the model on success and `None`
on `FileNotFoundError` or any other deserialization error, so the caller
distinguishes a ready model from an unavailable one by a `None` check. -/
theorem load_model_total {α : Type} :
    (∀ m : α, load_model (LoadOutcome.ok m) = some m) ∧
    load_model (LoadOutcome.fileNotFound : LoadOutcome α) = none ∧
    (∀ msg, load_model (LoadOutcome.otherError msg : LoadOutcome α) = none) ∧
    (∀ outcome : LoadOutcome α, load_model outcome = none ↔
      ∀ m : α, outcome ≠ LoadOutcome.ok m) := by
  refine ⟨fun _ => rfl, rfl, fun _ => rfl, fun outcome => ?_⟩
  cases outcome with
  | ok m =>
    simp [load_model]
  | fileNotFound =>
    simp [load_model]
  | otherError msg =>
    simp [load_model]

/-!
### Unconditional length preservation for the introsort model
-/

theorem insInner_length (v : Nat → ℚ) (vp : ℚ) (vi lo : Nat) :
    ∀ fuel t pj, (insInner v vp vi lo fuel t pj).length = t.length := by
  intro fuel
  induction fuel with
  | zero => intro t pj; simp [insInner]
  | succ fuel ih =>
    intro t pj
    rw [insInner]
    by_cases hc : lo < pj ∧ vp < vAt v t (pj - 1)
    · rw [if_pos hc, ih]
      simp
    · rw [if_neg hc]
      simp

theorem insLoop_length (v : Nat → ℚ) (lo hi : Nat) :
    ∀ fuel t pi, (insLoop v lo hi fuel t pi).length = t.length := by
  intro fuel
  induction fuel with
  | zero => intro t pi; rfl
  | succ fuel ih =>
    intro t pi
    rw [insLoop]
    by_cases hc : pi ≤ hi
    · rw [if_pos hc, ih, insInner_length]
    · rw [if_neg hc]

theorem insSortSeg_length (v : Nat → ℚ) (t : List Nat) (lo hi : Nat) :
    (insSortSeg v t lo hi).length = t.length := insLoop_length v lo hi _ t _

theorem hoareLoop_length (v : Nat → ℚ) (vp : ℚ) (hi : Nat) :
    ∀ fuel t i j, (hoareLoop v vp hi fuel t i j).1.length = t.length := by
  intro fuel
  induction fuel with
  | zero => intro t i j; rfl
  | succ fuel ih =>
    intro t i j
    rw [hoareLoop]
    by_cases hc : scanDown v t vp hi j ≤ scanUp v t vp hi i
    · rw [if_pos hc]
    · rw [if_neg hc, ih]
      simp [swp]

theorem med3a_length (v : Nat → ℚ) (t : List Nat) (lo pm : Nat) :
    (med3a v t lo pm).length = t.length := by
  unfold med3a
  by_cases hc : vAt v t pm < vAt v t lo
  · rw [if_pos hc]; simp [swp]
  · rw [if_neg hc]

theorem med3b_length (v : Nat → ℚ) (t : List Nat) (pm hi : Nat) :
    (med3b v t pm hi).length = t.length := by
  unfold med3b
  by_cases hc : vAt v t hi < vAt v t pm
  · rw [if_pos hc]; simp [swp]
  · rw [if_neg hc]

theorem partitionSeg_length (v : Nat → ℚ) (t : List Nat) (lo hi : Nat) :
    (partitionSeg v t lo hi).1.length = t.length := by
  unfold partitionSeg med3
  simp only [swp, List.length_set, hoareLoop_length, med3a_length, med3b_length]

theorem siftLoop_length (v : Nat → ℚ) (lo tmp n : Nat) :
    ∀ fuel t i j, (siftLoop v lo tmp n fuel t i j).length = t.length := by
  intro fuel
  induction fuel with
  | zero => intro t i j; simp [siftLoop, aSet]
  | succ fuel ih =>
    intro t i j
    rw [siftLoop]
    by_cases hc : j ≤ n
    · rw [if_pos hc]
      by_cases hd : v tmp < v (aGet t lo (if j < n ∧ v (aGet t lo j) < v (aGet t lo (j + 1)) then j + 1 else j))
      · rw [if_pos hd, ih]
        simp [aSet]
      · rw [if_neg hd]
        simp [aSet]
    · rw [if_neg hc]
      simp [aSet]

theorem heapBuild_length (v : Nat → ℚ) (lo n : Nat) :
    ∀ fuel t l, (heapBuild v lo n fuel t l).length = t.length := by
  intro fuel
  induction fuel with
  | zero => intro t l; rfl
  | succ fuel ih =>
    intro t l
    rw [heapBuild]
    by_cases hc : 0 < l
    · rw [if_pos hc, ih, siftLoop_length]
    · rw [if_neg hc]

theorem heapExtract_length (v : Nat → ℚ) (lo : Nat) :
    ∀ fuel t n, (heapExtract v lo fuel t n).length = t.length := by
  intro fuel
  induction fuel with
  | zero => intro t n; rfl
  | succ fuel ih =>
    intro t n
    rw [heapExtract]
    by_cases hc : 1 < n
    · rw [if_pos hc, ih, siftLoop_length]
      simp [aSet]
    · rw [if_neg hc]

theorem aheapsortSeg_length (v : Nat → ℚ) (t : List Nat) (lo num : Nat) :
    (aheapsortSeg v t lo num).length = t.length := by
  unfold aheapsortSeg
  rw [heapExtract_length, heapBuild_length]

theorem sortSeg_length (v : Nat → ℚ) :
    ∀ fuel t lo hi b, (sortSeg v fuel t lo hi b).1.length = t.length := by
  intro fuel
  induction fuel with
  | zero => intro t lo hi b; rfl
  | succ fuel ih =>
    intro t lo hi b
    rw [sortSeg]
    by_cases hc : 15 < hi - lo
    · rw [if_pos hc]
      by_cases hb : b < 0
      · rw [if_pos hb]
        exact aheapsortSeg_length v t lo (hi + 1 - lo)
      · rw [if_neg hb]
        by_cases hside : (partitionSeg v t lo hi).2 - lo < hi - (partitionSeg v t lo hi).2
        · show (if _ then _ else _ : List Nat × Int).1.length = _
          rw [if_pos hside, ih, ih, partitionSeg_length]
        · show (if _ then _ else _ : List Nat × Int).1.length = _
          rw [if_neg hside, ih, ih, partitionSeg_length]
    · rw [if_neg hc]
      exact insSortSeg_length v t lo hi

theorem argsortQuick_length (s : List ℚ) : (argsortQuick s).length = s.length := by
  unfold argsortQuick
  rw [sortSeg_length]
  simp

/-!
### Orchestrator run lemmas
-/

theorem buildResultsDF_rows_length (sess : Session) :
    (buildResultsDF sess).rows.length = sess.rows.length := by
  simp [buildResultsDF]

theorem dropCol_position_pre (vA vT vE : List String) (data : DataFrame) :
    dropCol "Position" (preprocessDF vA vT vE data) =
      Except.ok ⟨TRAINING_FEATURE_NAMES.filter (fun x => decide (x ≠ "Position")),
        (preprocessDF vA vT vE data).rows⟩ := by
  unfold dropCol
  rw [preprocessDF_cols]
  rw [if_pos (by decide)]

/-- The score vector computed inside `get_predictions`: the model applied to
the ordered cell vector of each preprocessed row, after `Position` is
dropped. -/
def scoresOf (vA vT vE : List String) (sess : Session) (m : List Cell → ℚ) : List ℚ :=
  (preprocessDF vA vT vE (buildResultsDF sess)).rows.map
    (fun r => m ((TRAINING_FEATURE_NAMES.filter (fun x => decide (x ≠ "Position"))).map r))

theorem getD_map_range {α : Type} [Inhabited α] (l : List α) :
    (List.range l.length).map (fun k => l.getD k default) = l := by
  apply List.ext_getElem
  · simp
  · intro i h1 h2
    simp only [List.getElem_map, List.getElem_range]
    exact List.getD_eq_getElem l default h2

theorem final_resort_identity (l : List RankEntry) (hl : l.length = 20)
    (hpos : ∀ i, i < 20 → (l.getD i default).position = i + 1) :
    (argsortQuick (l.map (fun e => (e.position : ℚ)))).map (fun i => l.getD i default) = l := by
  have hpvlen : (l.map (fun e => (e.position : ℚ))).length = 20 := by
    rw [List.length_map, hl]
  obtain ⟨hL, hP, hS⟩ := argsortQuick_spec (l.map (fun e => (e.position : ℚ))) hpvlen
  set idx := argsortQuick (l.map (fun e => (e.position : ℚ))) with hidx
  have hmem : ∀ i ∈ idx, i < 20 := fun i hi => List.mem_range.1 (hP.mem_iff.1 hi)
  have hv : ∀ i, i < 20 → (l.map (fun e => (e.position : ℚ))).getD i 0 = (i : ℚ) + 1 := by
    intro i hi
    have hil : i < (l.map (fun e => (e.position : ℚ))).length := by omega
    rw [List.getD_eq_getElem _ _ hil, List.getElem_map]
    have hp2 := hpos i hi
    rw [List.getD_eq_getElem l default (by omega)] at hp2
    rw [hp2]
    push_cast
    ring
  have hmapeq : idx.map (fun i => (l.map (fun e => (e.position : ℚ))).getD i 0) =
      idx.map (fun (i : Nat) => (i : ℚ) + 1) :=
    List.map_congr_left (fun i hi => hv i (hmem i hi))
  have sortedA : List.Pairwise (· ≤ ·) (idx.map (fun (i : Nat) => (i : ℚ) + 1)) := by
    rw [← hmapeq]; exact hS
  have permA : List.Perm (idx.map (fun (i : Nat) => (i : ℚ) + 1))
      ((List.range 20).map (fun (i : Nat) => (i : ℚ) + 1)) := hP.map _
  have sortedB : List.Pairwise (· ≤ ·) ((List.range 20).map (fun (i : Nat) => (i : ℚ) + 1)) := by
    refine List.Pairwise.map _ (fun a b hab => ?_) (List.pairwise_lt_range 20)
    have hc : (a : ℚ) ≤ (b : ℚ) := by exact_mod_cast Nat.le_of_lt hab
    linarith
  have hAB : idx.map (fun (i : Nat) => (i : ℚ) + 1) =
      (List.range 20).map (fun (i : Nat) => (i : ℚ) + 1) :=
    List.eq_of_perm_of_sorted permA sortedA sortedB
  have hinj : Function.Injective (fun (i : Nat) => (i : ℚ) + 1) := by
    intro a b hab
    simp only at hab
    have hc : (a : ℚ) = (b : ℚ) := by linarith
    exact_mod_cast hc
  have hid : idx = List.range 20 := (List.map_injective_iff.2 hinj) hAB
  rw [hid, ← hl, getD_map_range]

theorem getPredictionsModel_run (vA vT vE : List String) (sess : Session)
    (m : List Cell → ℚ) (names : String → Option String)
    (h20 : sess.rows.length = 20) :
    getPredictionsModel vA vT vE sess (some m) names =
      Except.ok (((argsortQuick (scoresOf vA vT vE sess m)).map
        (fun i => sess.rows.getD i default)).enum.map
        (fun p => { position := p.1 + 1, driver := names p.2.abbr,
                    team := p.2.team : RankEntry })) := by
  have hrownil : (buildResultsDF sess).rows ≠ [] := by
    intro hnil
    have hlen := buildResultsDF_rows_length sess
    rw [hnil] at hlen
    simp at hlen
    omega
  have hcolnil : (buildResultsDF sess).cols ≠ [] := by
    intro hnil
    exact absurd hnil (by simp [buildResultsDF, resultsCols])
  have hprelen : (preprocessDF vA vT vE (buildResultsDF sess)).rows.length = 20 := by
    rw [preprocessDF_length vA vT vE _ hrownil hcolnil, buildResultsDF_rows_length, h20]
  have hslen : (scoresOf vA vT vE sess m).length = 20 := by
    unfold scoresOf
    rw [List.length_map, hprelen]
  obtain ⟨hIL, hIP, _⟩ := argsortQuick_spec (scoresOf vA vT vE sess m) hslen
  have hrlen : ((argsortQuick (scoresOf vA vT vE sess m)).map
      (fun i => sess.rows.getD i default)).length = 20 := by
    rw [List.length_map, hIL]
  simp only [getPredictionsModel, if_pos h20, dropCol_position_pre]
  have hc2 : ((preprocessDF vA vT vE (buildResultsDF sess)).rows.map
      (fun r => m ((TRAINING_FEATURE_NAMES.filter (fun x => decide (x ≠ "Position"))).map r))).length =
      sess.rows.length := by
    rw [List.length_map, hprelen, h20]
  rw [if_pos hc2]
  have hseq : (preprocessDF vA vT vE (buildResultsDF sess)).rows.map
      (fun r => m ((TRAINING_FEATURE_NAMES.filter (fun x => decide (x ≠ "Position"))).map r)) =
      scoresOf vA vT vE sess m := rfl
  rw [hseq, if_pos hrlen]
  have hmlen : (((argsortQuick (scoresOf vA vT vE sess m)).map
      (fun i => sess.rows.getD i default)).enum.map
      (fun p => { position := p.1 + 1, driver := names p.2.abbr,
                  team := p.2.team : RankEntry })).length = 20 := by
    rw [List.length_map, List.enum_length, hrlen]
  have hmpos : ∀ i, i < 20 → ((((argsortQuick (scoresOf vA vT vE sess m)).map
      (fun i => sess.rows.getD i default)).enum.map
      (fun p => { position := p.1 + 1, driver := names p.2.abbr,
                  team := p.2.team : RankEntry })).getD i default).position = i + 1 := by
    intro i hi
    rw [List.getD_eq_getElem _ default (by omega)]
    simp [List.getElem_enum]
  exact congrArg Except.ok (final_resort_identity _ hmlen hmpos)

theorem scoresOf_length (vA vT vE : List String) (sess : Session) (m : List Cell → ℚ)
    (h20 : sess.rows.length = 20) : (scoresOf vA vT vE sess m).length = 20 := by
  have hrownil : (buildResultsDF sess).rows ≠ [] := by
    intro hnil
    have hlen := buildResultsDF_rows_length sess
    rw [hnil] at hlen
    simp at hlen
    omega
  have hcolnil : (buildResultsDF sess).cols ≠ [] := by
    intro hnil
    exact absurd hnil (by simp [buildResultsDF, resultsCols])
  unfold scoresOf
  rw [List.length_map, preprocessDF_length vA vT vE _ hrownil hcolnil,
    buildResultsDF_rows_length, h20]

theorem getPredictionsModel_length_cases (vA vT vE : List String) (sess : Session)
    (mload : Option (List Cell → ℚ)) (names : String → Option String) :
    (getPredictionsModel vA vT vE sess mload names).toOption.map List.length = none ∨
    (getPredictionsModel vA vT vE sess mload names).toOption.map List.length = some 20 := by
  by_cases h20 : sess.rows.length = 20
  · cases mload with
    | none =>
      left
      simp only [getPredictionsModel, if_pos h20, dropCol_position_pre]
      rfl
    | some m =>
      right
      rw [getPredictionsModel_run vA vT vE sess m names h20]
      have hs := scoresOf_length vA vT vE sess m h20
      obtain ⟨hIL, _, _⟩ := argsortQuick_spec (scoresOf vA vT vE sess m) hs
      simp [Except.toOption, hIL]
  · left
    simp [getPredictionsModel, if_neg h20, Except.toOption]

/-!
### Claim theorem for the HTTP endpoint
-/

/-- C3 (code bug): the `predict` endpoint never calls the Prediction
Orchestrator.  For any POST body containing the key `race` it returns the
fixed hardcoded response object, whose `rankings` field has exactly the same
10 entries for every request, whereas a successful orchestrator run
(`getPredictionsModel`) always yields exactly 20 entries — so the response's
`rankings` field never equals the orchestrator's output for the requested
round. -/
theorem predict_endpoint_hardcoded :
    (∀ (race : JVal) (rest : List (String × JVal)),
      predictHandler (("race", race) :: rest) = Except.ok (JVal.obj [
        ("race", race),
        ("prediction", JVal.s ("Prediction for " ++ jstr race ++ " completed!")),
        ("rankings", JVal.arr (hardcodedRankings.map (fun e =>
          JVal.obj [("position", JVal.n e.1), ("driver", JVal.s e.2.1),
            ("team", JVal.s e.2.2)])))])) ∧
    hardcodedRankings.length = 10 ∧
    (∀ (vA vT vE : List String) (sess : Session) (mload : Option (List Cell → ℚ))
      (names : String → Option String),
      (getPredictionsModel vA vT vE sess mload names).toOption.map List.length = none ∨
      (getPredictionsModel vA vT vE sess mload names).toOption.map List.length = some 20) :=
  ⟨fun _ _ => rfl, rfl,
    fun vA vT vE sess mload names => getPredictionsModel_length_cases vA vT vE sess mload names⟩

theorem buildResultsDF_cellAt (sess : Session) (i : Nat) (hi : i < sess.rows.length)
    (c : String) :
    cellAt (buildResultsDF sess) i c = resultsRow sess i (sess.rows.getD i default) c := by
  unfold cellAt buildResultsDF
  have hie : i < (sess.rows.enum.map (fun p => resultsRow sess p.1 p.2)).length := by
    simp
    omega
  rw [List.getD_eq_getElem _ _ hie]
  simp only [List.getElem_map, List.getElem_enum]
  rw [List.getD_eq_getElem sess.rows default hi]

/-!
### Claim theorem for the Session Data Fetcher
-/

/-- C8: in the Session Data Fetcher part of `get_predictions`, every unset
qualifying segment time (Q1, Q2 or Q3 absent for a driver) is replaced by the
sentinel `9999.0` while set times are kept as their second values, and the
per-driver `GridPosition` column is overwritten with the fixed sequence
`1.0, 2.0, ..., 20.0` (row `i` receives `i + 1` whatever the provider's grid
value for that row was). -/
theorem fetcher_sentinel_and_grid_overwrite (sess : Session) (i : Nat)
    (hi : i < sess.rows.length) :
    cellAt (buildResultsDF sess) i "GridPosition" = Cell.num ((i : ℚ) + 1) ∧
    ((sess.rows.getD i default).q1 = none →
      cellAt (buildResultsDF sess) i "Q1_s" = Cell.num 9999) ∧
    ((sess.rows.getD i default).q2 = none →
      cellAt (buildResultsDF sess) i "Q2_s" = Cell.num 9999) ∧
    ((sess.rows.getD i default).q3 = none →
      cellAt (buildResultsDF sess) i "Q3_s" = Cell.num 9999) ∧
    (∀ q : ℚ, (sess.rows.getD i default).q1 = some q →
      cellAt (buildResultsDF sess) i "Q1_s" = Cell.num q) ∧
    (∀ q : ℚ, (sess.rows.getD i default).q2 = some q →
      cellAt (buildResultsDF sess) i "Q2_s" = Cell.num q) ∧
    (∀ q : ℚ, (sess.rows.getD i default).q3 = some q →
      cellAt (buildResultsDF sess) i "Q3_s" = Cell.num q) := by
  have hcell := buildResultsDF_cellAt sess i hi
  refine ⟨?_, fun h => ?_, fun h => ?_, fun h => ?_,
    fun q h => ?_, fun q h => ?_, fun q h => ?_⟩
  · rw [hcell "GridPosition"]
    simp [resultsRow]
  · rw [hcell "Q1_s"]
    rw [List.getD_eq_getElem?_getD] at h
    simp [resultsRow, qCell, h]
  · rw [hcell "Q2_s"]
    rw [List.getD_eq_getElem?_getD] at h
    simp [resultsRow, qCell, h]
  · rw [hcell "Q3_s"]
    rw [List.getD_eq_getElem?_getD] at h
    simp [resultsRow, qCell, h]
  · rw [hcell "Q1_s"]
    rw [List.getD_eq_getElem?_getD] at h
    simp [resultsRow, qCell, h]
  · rw [hcell "Q2_s"]
    rw [List.getD_eq_getElem?_getD] at h
    simp [resultsRow, qCell, h]
  · rw [hcell "Q3_s"]
    rw [List.getD_eq_getElem?_getD] at h
    simp [resultsRow, qCell, h]

/-- A one-row session exercising a set Q1, an unset Q2 and a set Q3. -/
def sessC8 : Session :=
  ⟨2024, 5, "Monaco Grand Prix", [⟨"VER", "Red Bull", 3, some 70, none, some 68⟩]⟩

theorem fetcher_sentinel_and_grid_overwrite_witness :
    0 < sessC8.rows.length ∧
    (cellAt (buildResultsDF sessC8) 0 "GridPosition" = Cell.num ((0 : ℚ) + 1) ∧
     ((sessC8.rows.getD 0 default).q1 = none →
       cellAt (buildResultsDF sessC8) 0 "Q1_s" = Cell.num 9999) ∧
     ((sessC8.rows.getD 0 default).q2 = none →
       cellAt (buildResultsDF sessC8) 0 "Q2_s" = Cell.num 9999) ∧
     ((sessC8.rows.getD 0 default).q3 = none →
       cellAt (buildResultsDF sessC8) 0 "Q3_s" = Cell.num 9999) ∧
     (∀ q : ℚ, (sessC8.rows.getD 0 default).q1 = some q →
       cellAt (buildResultsDF sessC8) 0 "Q1_s" = Cell.num q) ∧
     (∀ q : ℚ, (sessC8.rows.getD 0 default).q2 = some q →
       cellAt (buildResultsDF sessC8) 0 "Q2_s" = Cell.num q) ∧
     (∀ q : ℚ, (sessC8.rows.getD 0 default).q3 = some q →
       cellAt (buildResultsDF sessC8) 0 "Q3_s" = Cell.num q)) :=
  ⟨by decide, fetcher_sentinel_and_grid_overwrite sessC8 0 (by decide)⟩

/-!
### Claim theorems for the Prediction Orchestrator
-/

/-- C10: `get_predictions` implicitly requires exactly 20 fetched driver
rows.  For any other row count the fixed 20-element `GridPosition`
assignment raises a length-mismatch error before any ranking is produced;
with exactly 20 rows both 20-element assignments succeed — the call returns
a 20-entry ranking whenever the model is loaded, and fails only with the
missing-model `AttributeError` (never a length mismatch) otherwise. -/
theorem get_predictions_row_count_precondition (vA vT vE : List String)
    (sess : Session) (names : String → Option String) :
    (∀ mload, sess.rows.length ≠ 20 →
      getPredictionsModel vA vT vE sess mload names = Except.error PyErr.lengthMismatch) ∧
    (sess.rows.length = 20 →
      getPredictionsModel vA vT vE sess none names = Except.error PyErr.attributeErr ∧
      ∀ m : List Cell → ℚ, ∃ out : List RankEntry,
        getPredictionsModel vA vT vE sess (some m) names = Except.ok out ∧
        out.length = 20) := by
  constructor
  · intro mload h
    simp [getPredictionsModel, if_neg h]
  · intro h20
    constructor
    · simp only [getPredictionsModel, if_pos h20, dropCol_position_pre]
    · intro m
      refine ⟨_, getPredictionsModel_run vA vT vE sess m names h20, ?_⟩
      have hs := scoresOf_length vA vT vE sess m h20
      obtain ⟨hIL, _, _⟩ := argsortQuick_spec (scoresOf vA vT vE sess m) hs
      rw [List.length_map, List.enum_length, List.length_map, hIL]

/-- A one-row session (wrong row count). -/
def sessC10 : Session :=
  ⟨2024, 5, "Miami Grand Prix", [⟨"VER", "Red Bull", 1, none, none, none⟩]⟩

/-- A 20-row session (the implicit precondition holds). -/
def sessC10b : Session :=
  ⟨2024, 5, "Miami Grand Prix",
    List.replicate 20 ⟨"VER", "Red Bull", 1, none, none, none⟩⟩

theorem get_predictions_row_count_precondition_witness :
    (sessC10.rows.length ≠ 20 ∧
      getPredictionsModel [] [] [] sessC10 none (fun _ => none) =
        Except.error PyErr.lengthMismatch) ∧
    (sessC10b.rows.length = 20 ∧
      (getPredictionsModel [] [] [] sessC10b none (fun _ => none) =
        Except.error PyErr.attributeErr ∧
      ∀ m : List Cell → ℚ, ∃ out : List RankEntry,
        getPredictionsModel [] [] [] sessC10b (some m) (fun _ => none) = Except.ok out ∧
        out.length = 20)) :=
  ⟨⟨by decide,
    (get_predictions_row_count_precondition [] [] [] sessC10 (fun _ => none)).1 none (by decide)⟩,
   ⟨by decide,
    (get_predictions_row_count_precondition [] [] [] sessC10b (fun _ => none)).2 (by decide)⟩⟩

/-- C2 (amended): given one continuous score per driver, the orchestrator
emits the drivers sorted ascending by score and assigns the integer ranks
`1..20` in sorted order; the emission order is a permutation `idx` of the 20
fetched rows along which the scores are nondecreasing.  (The sort is pandas'
default `quicksort` — numpy's unstable introsort — so for equal scores the
emitted order is whatever the introsort produces, not necessarily the fetch
order; see the counterexample below.) -/
theorem get_predictions_sorted_ranking (vA vT vE : List String) (sess : Session)
    (m : List Cell → ℚ) (names : String → Option String)
    (h20 : sess.rows.length = 20) :
    ∃ (out : List RankEntry) (idx : List Nat),
      getPredictionsModel vA vT vE sess (some m) names = Except.ok out ∧
      List.Perm idx (List.range 20) ∧
      List.Pairwise (· ≤ ·) (idx.map (fun i => (scoresOf vA vT vE sess m).getD i 0)) ∧
      out.map (fun e => e.position) = List.range' 1 20 ∧
      out.map (fun e => (e.driver, e.team)) =
        idx.map (fun i => (names (sess.rows.getD i default).abbr,
          (sess.rows.getD i default).team)) := by
  have hs := scoresOf_length vA vT vE sess m h20
  obtain ⟨hIL, hIP, hIS⟩ := argsortQuick_spec (scoresOf vA vT vE sess m) hs
  refine ⟨_, argsortQuick (scoresOf vA vT vE sess m),
    getPredictionsModel_run vA vT vE sess m names h20, hIP, hIS, ?_, ?_⟩
  · apply List.ext_getElem
    · simp [hIL]
    · intro i h1 h2
      simp only [List.getElem_map, List.getElem_enum, List.getElem_range']
      omega
  · apply List.ext_getElem
    · simp
    · intro i h1 h2
      simp only [List.getElem_map, List.getElem_enum]

/-- A 20-row session with distinct driver/team labels. -/
def sessC2w : Session :=
  ⟨2024, 5, "Monaco Grand Prix", (List.range 20).map (fun i =>
    ⟨"D" ++ toString i, "T" ++ toString i, 1, none, none, none⟩)⟩

theorem get_predictions_sorted_ranking_witness :
    sessC2w.rows.length = 20 ∧
    ∃ (out : List RankEntry) (idx : List Nat),
      getPredictionsModel [] [] [] sessC2w (some (fun _ => 0)) (fun a => some a) =
        Except.ok out ∧
      List.Perm idx (List.range 20) ∧
      List.Pairwise (· ≤ ·)
        (idx.map (fun i => (scoresOf [] [] [] sessC2w (fun _ => 0)).getD i 0)) ∧
      out.map (fun e => e.position) = List.range' 1 20 ∧
      out.map (fun e => (e.driver, e.team)) =
        idx.map (fun i => (some (sessC2w.rows.getD i default).abbr,
          (sessC2w.rows.getD i default).team)) :=
  ⟨by decide,
    get_predictions_sorted_ranking [] [] [] sessC2w (fun _ => 0) (fun a => some a) (by decide)⟩

set_option maxRecDepth 4000 in
/-- C2 counterexample to the original tie-break sentence: with all 20 scores
equal, the emitted driver order is not the original fetch order — pandas'
default `sort_values` kind (`quicksort`, numpy's introsort) is not stable, so
equal scores do not preserve fetch order. -/
theorem get_predictions_tie_order_counterexample :
    (getPredictionsModel [] [] [] sessC2w (some (fun _ => 0)) (fun a => some a)).toOption.map
        (fun l => l.map (fun e => e.driver)) ≠
      some (sessC2w.rows.map (fun r => some r.abbr)) := by
  decide
